import Mathlib

/-!
Verification development for the android-ext4-rs read-only ext4 parser.

The Rust sources are shallowly embedded:
* byte buffers are `List Nat` (each element a byte value, reduced mod 256 at
  the point where the Rust code reads a `u8`);
* the backing image reader (`R: Read + Seek`) is a total function
  `Disk : Nat → Nat` from absolute byte offset to byte value, so `seek` +
  `read_exact` always succeed (host I/O errors are out of scope);
* fallible Rust code returns `Except Err _`; a Rust slice-indexing panic is
  modelled as `.error .panic`; the unbounded extent-tree recursion takes a
  fuel argument and returns `.error .outOfFuel` when the fuel runs out
  (no finite Rust execution returns this value).
-/

/-- Error kind, combining `Ext4Error` (src/ext4/mod.rs) with the two
modelling-only outcomes `panic` (Rust slice-bounds panic) and `outOfFuel`
(the embedded recursion exhausted its fuel). -/
inductive Err where
  | parse : Err
  | invalidMagic : Err
  | invalidSuperblock : Err
  | invalidInode : Nat → Err
  | invalidBlockGroup : Nat → Err
  | invalidExtent : Err
  | fileNotFound : String → Err
  | notADirectory : Err
  | invalidPath : String → Err
  | readBeyondEof : Err
  | panic : Err
  | outOfFuel : Err
  deriving Repr, DecidableEq

/-- Boolean success test for `Except`. -/
def Except.okB {ε α : Type} : Except ε α → Bool
  | .ok _ => true
  | .error _ => false

deriving instance DecidableEq for Except

/-- Byte at index `i` of a buffer, as the Rust `u8` value. -/
def byteAt (b : List Nat) (i : Nat) : Nat := b.getD i 0 % 256

/-- Little-endian `u16` read at byte offset `off` (nom `le_u16`). -/
def leU16 (b : List Nat) (off : Nat) : Nat :=
  byteAt b off + 256 * byteAt b (off + 1)

/-- Little-endian `u32` read at byte offset `off` (nom `le_u32`). -/
def leU32 (b : List Nat) (off : Nat) : Nat :=
  byteAt b off + 256 * byteAt b (off + 1) + 65536 * byteAt b (off + 2) +
    16777216 * byteAt b (off + 3)

/-- Little-endian `u64` read at byte offset `off` (nom `le_u64`). -/
def leU64 (b : List Nat) (off : Nat) : Nat :=
  leU32 b off + 4294967296 * leU32 b (off + 4)

/-- `len` raw bytes starting at `off` (nom `take`). -/
def bufTake (b : List Nat) (off len : Nat) : List Nat :=
  ((b.drop off).take len).map (· % 256)

/-- `n` consecutive little-endian `u32` values starting at `off`
(nom `count(le_u32, n)`). -/
def leU32Vec (b : List Nat) (off n : Nat) : List Nat :=
  (List.range n).map (fun i => leU32 b (off + 4 * i))

/-- The image, as a total byte-addressed reader: every `seek`/`read_exact`
pair yields the bytes of this function. -/
def Disk : Type := Nat → Nat

/-- The `len` bytes a reader returns for a `seek(start)` + `read_exact`. -/
def diskBytes (d : Disk) (start len : Nat) : List Nat :=
  (List.range len).map (fun i => d (start + i) % 256)

/-- `struct Superblock` from src/ext4/superblock.rs, all fields in source
order; byte arrays are `List Nat`, `[u32; n]` arrays are `List Nat` of the
decoded words. Defaults make `{ }` the all-zero superblock. -/
structure Superblock where
  inodes_count : Nat := 0
  blocks_count_lo : Nat := 0
  reserved_blocks_count_lo : Nat := 0
  free_blocks_count_lo : Nat := 0
  free_inodes_count : Nat := 0
  first_data_block : Nat := 0
  log_block_size : Nat := 0
  log_cluster_size : Nat := 0
  blocks_per_group : Nat := 0
  frags_per_group : Nat := 0
  inodes_per_group : Nat := 0
  mount_time : Nat := 0
  write_time : Nat := 0
  mount_count : Nat := 0
  max_mount_count : Nat := 0
  magic : Nat := 0
  state : Nat := 0
  errors : Nat := 0
  minor_rev_level : Nat := 0
  last_check_time : Nat := 0
  check_interval : Nat := 0
  creator_os : Nat := 0
  rev_level : Nat := 0
  def_resuid : Nat := 0
  def_resgid : Nat := 0
  first_inode : Nat := 0
  inode_size : Nat := 0
  block_group_index : Nat := 0
  features_compatible : Nat := 0
  features_incompatible : Nat := 0
  features_read_only : Nat := 0
  uuid : List Nat := List.replicate 16 0
  volume_name : List Nat := List.replicate 16 0
  last_mounted : List Nat := List.replicate 64 0
  algorithm_usage_bitmap : Nat := 0
  s_prealloc_blocks : Nat := 0
  s_prealloc_dir_blocks : Nat := 0
  s_reserved_gdt_blocks : Nat := 0
  journal_uuid : List Nat := List.replicate 16 0
  journal_inode_number : Nat := 0
  journal_dev : Nat := 0
  last_orphan : Nat := 0
  hash_seed : List Nat := List.replicate 4 0
  default_hash_version : Nat := 0
  journal_backup_type : Nat := 0
  desc_size : Nat := 0
  default_mount_opts : Nat := 0
  first_meta_bg : Nat := 0
  mkfs_time : Nat := 0
  journal_blocks : List Nat := List.replicate 17 0
  blocks_count_hi : Nat := 0
  reserved_blocks_count_hi : Nat := 0
  free_blocks_count_hi : Nat := 0
  min_extra_isize : Nat := 0
  want_extra_isize : Nat := 0
  flags : Nat := 0
  raid_stride : Nat := 0
  mmp_interval : Nat := 0
  mmp_block : Nat := 0
  raid_stripe_width : Nat := 0
  log_groups_per_flex : Nat := 0
  checksum_type : Nat := 0
  reserved_pad : Nat := 0
  kbytes_written : Nat := 0
  snapshot_inum : Nat := 0
  snapshot_id : Nat := 0
  snapshot_r_blocks_count : Nat := 0
  snapshot_list : Nat := 0
  error_count : Nat := 0
  first_error_time : Nat := 0
  first_error_ino : Nat := 0
  first_error_block : Nat := 0
  first_error_func : List Nat := List.replicate 32 0
  first_error_line : Nat := 0
  last_error_time : Nat := 0
  last_error_ino : Nat := 0
  last_error_line : Nat := 0
  last_error_block : Nat := 0
  last_error_func : List Nat := List.replicate 32 0
  mount_opts : List Nat := List.replicate 64 0
  usr_quota_inum : Nat := 0
  grp_quota_inum : Nat := 0
  overhead_clusters : Nat := 0
  backup_bgs : List Nat := List.replicate 2 0
  encrypt_algos : List Nat := List.replicate 4 0
  encrypt_pw_salt : List Nat := List.replicate 16 0
  lpf_ino : Nat := 0
  padding : List Nat := List.replicate 100 0
  checksum : Nat := 0
  deriving Repr, DecidableEq

/-- `Superblock::SUPERBLOCK_OFFSET`. -/
def Superblock.SUPERBLOCK_OFFSET : Nat := 1024

/-- `Superblock::EXT4_SUPERBLOCK_MAGIC`. -/
def Superblock.EXT4_SUPERBLOCK_MAGIC : Nat := 0xEF53

/-- `Superblock::parse` (src/ext4/superblock.rs lines 106-319): a sequence of
nom `le_uN` / `take` reads covering exactly 1024 bytes, in the source's field
order; the byte offsets below are the cumulative sums of the source's field
sizes. nom fails (with `Incomplete`/`Eof`) exactly when the input is shorter
than the 1024 bytes the field sequence consumes. The function performs NO
validation of any field: in particular the `magic` field (offset 56) is
stored but never compared against `EXT4_SUPERBLOCK_MAGIC`. -/
def Superblock.parse (input : List Nat) : Except Err Superblock :=
  if input.length < 1024 then .error .parse
  else .ok {
    inodes_count := leU32 input 0
    blocks_count_lo := leU32 input 4
    reserved_blocks_count_lo := leU32 input 8
    free_blocks_count_lo := leU32 input 12
    free_inodes_count := leU32 input 16
    first_data_block := leU32 input 20
    log_block_size := leU32 input 24
    log_cluster_size := leU32 input 28
    blocks_per_group := leU32 input 32
    frags_per_group := leU32 input 36
    inodes_per_group := leU32 input 40
    mount_time := leU32 input 44
    write_time := leU32 input 48
    mount_count := leU16 input 52
    max_mount_count := leU16 input 54
    magic := leU16 input 56
    state := leU16 input 58
    errors := leU16 input 60
    minor_rev_level := leU16 input 62
    last_check_time := leU32 input 64
    check_interval := leU32 input 68
    creator_os := leU32 input 72
    rev_level := leU32 input 76
    def_resuid := leU16 input 80
    def_resgid := leU16 input 82
    first_inode := leU32 input 84
    inode_size := leU16 input 88
    block_group_index := leU16 input 90
    features_compatible := leU32 input 92
    features_incompatible := leU32 input 96
    features_read_only := leU32 input 100
    uuid := bufTake input 104 16
    volume_name := bufTake input 120 16
    last_mounted := bufTake input 136 64
    algorithm_usage_bitmap := leU32 input 200
    s_prealloc_blocks := byteAt input 204
    s_prealloc_dir_blocks := byteAt input 205
    s_reserved_gdt_blocks := leU16 input 206
    journal_uuid := bufTake input 208 16
    journal_inode_number := leU32 input 224
    journal_dev := leU32 input 228
    last_orphan := leU32 input 232
    hash_seed := leU32Vec input 236 4
    default_hash_version := byteAt input 252
    journal_backup_type := byteAt input 253
    desc_size := leU16 input 254
    default_mount_opts := leU32 input 256
    first_meta_bg := leU32 input 260
    mkfs_time := leU32 input 264
    journal_blocks := leU32Vec input 268 17
    blocks_count_hi := leU32 input 336
    reserved_blocks_count_hi := leU32 input 340
    free_blocks_count_hi := leU32 input 344
    min_extra_isize := leU16 input 348
    want_extra_isize := leU16 input 350
    flags := leU32 input 352
    raid_stride := leU16 input 356
    mmp_interval := leU16 input 358
    mmp_block := leU64 input 360
    raid_stripe_width := leU32 input 368
    log_groups_per_flex := byteAt input 372
    checksum_type := byteAt input 373
    reserved_pad := leU16 input 374
    kbytes_written := leU64 input 376
    snapshot_inum := leU32 input 384
    snapshot_id := leU32 input 388
    snapshot_r_blocks_count := leU64 input 392
    snapshot_list := leU32 input 400
    error_count := leU32 input 404
    first_error_time := leU32 input 408
    first_error_ino := leU32 input 412
    first_error_block := leU64 input 416
    first_error_func := bufTake input 424 32
    first_error_line := leU32 input 456
    last_error_time := leU32 input 460
    last_error_ino := leU32 input 464
    last_error_line := leU32 input 468
    last_error_block := leU64 input 472
    last_error_func := bufTake input 480 32
    mount_opts := bufTake input 512 64
    usr_quota_inum := leU32 input 576
    grp_quota_inum := leU32 input 580
    overhead_clusters := leU32 input 584
    backup_bgs := leU32Vec input 588 2
    encrypt_algos := bufTake input 596 4
    encrypt_pw_salt := bufTake input 600 16
    lpf_ino := leU32 input 616
    padding := leU32Vec input 620 100
    checksum := leU32 input 1020 }

/-- `Superblock::block_size`: `1024 << log_block_size` on `u32`; in a release
build Rust masks the shift amount to the type width and wraps the result. -/
def Superblock.block_size (sb : Superblock) : Nat :=
  (1024 <<< (sb.log_block_size % 32)) % 4294967296

/-- `struct Volume` from src/ext4/volume.rs: the positioned reader, the
parsed superblock and the derived block size. -/
structure Volume where
  reader : Disk
  superblock : Superblock
  block_size : Nat

/-- `Volume::new` (src/ext4/volume.rs lines 28-42): seek to offset 1024,
read 1024 bytes, decode the superblock, derive the block size. -/
def Volume.new (reader : Disk) : Except Err Volume := do
  let sb_buf := diskBytes reader Superblock.SUPERBLOCK_OFFSET 1024
  let superblock ← Superblock.parse sb_buf
  let block_size := superblock.block_size
  .ok { reader, superblock, block_size }

/-- A write of `src` into `dst` at position `start`
(Rust `dst[start..start + src.len()].copy_from_slice(&src)` or `.fill(0)`);
out-of-range is a Rust panic. -/
def writeRange (dst : List Nat) (start : Nat) (src : List Nat) : Except Err (List Nat) :=
  if start + src.length ≤ dst.length then
    .ok (dst.take start ++ src ++ dst.drop (start + src.length))
  else .error .panic

/-- Rust slice `&b[start..stop]`; out-of-range is a panic. -/
def sliceRange (b : List Nat) (start stop : Nat) : Except Err (List Nat) :=
  if start ≤ stop ∧ stop ≤ b.length then .ok ((b.drop start).take (stop - start))
  else .error .panic

/-- The four `u32::from_le_bytes` reads of
`block_data[offset] ..= block_data[offset + 3]`; any index out of bounds is a
Rust panic. -/
def readU32InBlock (block_data : List Nat) (offset : Nat) : Except Err Nat :=
  if offset + 4 ≤ block_data.length then .ok (leU32 block_data offset)
  else .error .panic

/-- `word.to_le_bytes()` flattening of a `[u32]` array
(`iter().flat_map(|&word| word.to_le_bytes())`). -/
def wordsToBytes (ws : List Nat) : List Nat :=
  ws.flatMap (fun w => [w % 256, w / 256 % 256, w / 65536 % 256, w / 16777216 % 256])

/-- `struct ExtentHeader` from src/ext4/extent.rs. -/
structure ExtentHeader where
  magic : Nat
  entries_count : Nat
  max_entries_count : Nat
  depth : Nat
  generation : Nat
  deriving Repr, DecidableEq

/-- `ExtentHeader::parse` (src/ext4/extent.rs lines 17-34): four `le_u16`
then one `le_u32`, twelve bytes in all; the magic field is read but NOT
compared against `0xF30A`. -/
def ExtentHeader.parse (input : List Nat) : Except Err ExtentHeader :=
  if input.length < 12 then .error .parse
  else .ok {
    magic := leU16 input 0
    entries_count := leU16 input 2
    max_entries_count := leU16 input 4
    depth := leU16 input 6
    generation := leU32 input 8 }

/-- `struct ExtentIndex` from src/ext4/extent.rs. -/
structure ExtentIndex where
  first_block : Nat
  leaf_lo : Nat
  leaf_hi : Nat
  padding : Nat
  deriving Repr, DecidableEq

/-- `ExtentIndex::parse` (src/ext4/extent.rs lines 47-62). -/
def ExtentIndex.parse (input : List Nat) : Except Err ExtentIndex :=
  if input.length < 12 then .error .parse
  else .ok {
    first_block := leU32 input 0
    leaf_lo := leU32 input 4
    leaf_hi := leU16 input 8
    padding := leU16 input 10 }

/-- `ExtentIndex::leaf_block`. -/
def ExtentIndex.leaf_block (i : ExtentIndex) : Nat :=
  i.leaf_hi * 4294967296 + i.leaf_lo

/-- `struct Extent` from src/ext4/extent.rs. -/
structure Extent where
  first_block : Nat
  block_count : Nat
  start_hi : Nat
  start_lo : Nat
  deriving Repr, DecidableEq

/-- `Extent::EXT_INIT_MAX_LEN`. -/
def Extent.EXT_INIT_MAX_LEN : Nat := 32768

/-- `Extent::parse` (src/ext4/extent.rs lines 88-103). -/
def Extent.parse (input : List Nat) : Except Err Extent :=
  if input.length < 12 then .error .parse
  else .ok {
    first_block := leU32 input 0
    block_count := leU16 input 4
    start_hi := leU16 input 6
    start_lo := leU32 input 8 }

/-- `Extent::start_block`: 48-bit physical start, `(start_hi << 32) | start_lo`. -/
def Extent.start_block (e : Extent) : Nat :=
  e.start_hi * 4294967296 + e.start_lo

/-- `Extent::is_unwritten`: `block_count > EXT_INIT_MAX_LEN`. -/
def Extent.is_unwritten (e : Extent) : Bool :=
  e.block_count > Extent.EXT_INIT_MAX_LEN

/-- `Extent::get_actual_len` (src/ext4/extent.rs lines 113-119). -/
def Extent.get_actual_len (e : Extent) : Nat :=
  if e.is_unwritten then e.block_count - Extent.EXT_INIT_MAX_LEN
  else e.block_count

/-- `struct Inode`, restricted to the fields the read path consults
(src/ext4/inode.rs); `block` is the 15-word `[u32; 15]` array. -/
structure Inode where
  mode : Nat
  size : Nat
  size_hi : Nat
  flags : Nat
  block : List Nat
  deriving Repr, DecidableEq

/-- `inode.block[i]` (the array has 15 words; every index used by the read
path is a constant `< 15`, so the default is never consulted). -/
def Inode.blockWord (ino : Inode) (i : Nat) : Nat := ino.block.getD i 0

/-- `Inode::uses_extents`: the `Flags::Extents` bit `0x00080000`
(bit 19) of the flags word. -/
def Inode.uses_extents (ino : Inode) : Bool := ino.flags.testBit 19

/-- `Superblock::inode_size_file` (src/ext4/superblock.rs lines 321-331):
the 64-bit size, taking `size_hi` only for regular files
(`mode & 0xF000 == 0x8000`) in dynamic-revision images. -/
def Superblock.inode_size_file (sb : Superblock) (ino : Inode) : Nat :=
  if sb.rev_level > 0 ∧ ino.mode % 65536 / 4096 * 4096 = 32768 then
    ino.size + ino.size_hi * 4294967296
  else ino.size

/-- `Volume::read_block` (src/ext4/volume.rs lines 73-81): seek to
`block_num * block_size` and read `block_size` bytes. -/
def Volume.read_block (v : Volume) (block_num : Nat) : List Nat :=
  diskBytes v.reader (block_num * v.block_size) v.block_size

mutual

/-- `Volume::parse_extent_tree_from_block` (src/ext4/volume.rs lines
377-394), with an explicit fuel argument standing in for the UNBOUNDED Rust
recursion: the source has no depth cap and no visited set, so the embedding
signals `.outOfFuel` when the recursion outlives any given fuel. -/
def Volume.parse_extent_tree_from_block (v : Volume) (fuel : Nat)
    (block_data : List Nat) : Except Err (List Extent) :=
  match fuel with
  | 0 => .error .outOfFuel
  | fuel + 1 => do
    let hdr_bytes ← sliceRange block_data 0 12
    let header ← ExtentHeader.parse hdr_bytes
    Volume.extentEntriesLoop v fuel block_data header.depth header.entries_count 12 []
termination_by (fuel, 0)

/-- The `for _ in 0..header.entries_count` loop of
`parse_extent_tree_from_block`: at depth 0 collect leaf extents, otherwise
read each index's child block and recurse. -/
def Volume.extentEntriesLoop (v : Volume) (fuel : Nat) (block_data : List Nat)
    (depth : Nat) (remaining : Nat) (offset : Nat) (acc : List Extent) :
    Except Err (List Extent) :=
  match remaining with
  | 0 => .ok acc
  | r + 1 =>
    if depth = 0 then do
      let bytes ← sliceRange block_data offset (offset + 12)
      let e ← Extent.parse bytes
      Volume.extentEntriesLoop v fuel block_data depth r (offset + 12) (acc ++ [e])
    else do
      let bytes ← sliceRange block_data offset (offset + 12)
      let index ← ExtentIndex.parse bytes
      let child_block_data := v.read_block index.leaf_block
      let child ← Volume.parse_extent_tree_from_block v fuel child_block_data
      Volume.extentEntriesLoop v fuel block_data depth r (offset + 12) (acc ++ child)
termination_by (fuel, remaining + 1)

end

/-- `Volume::parse_extent_tree` (src/ext4/volume.rs lines 368-375): flatten
the inode's 15-word `block` array to 60 bytes and parse the root node. -/
def Volume.parse_extent_tree (v : Volume) (fuel : Nat) (block : List Nat) :
    Except Err (List Extent) :=
  v.parse_extent_tree_from_block fuel (wordsToBytes block)

/-- `Volume::get_block_from_inode` (src/ext4/volume.rs lines 255-366):
direct / single / double / triple indirect resolution of a logical block
index to a physical block number; a zero pointer at any level yields 0. -/
def Volume.get_block_from_inode (v : Volume) (ino : Inode) (logical_block : Nat) :
    Except Err Nat :=
  let addr_per_block := v.block_size / 4
  if logical_block < 12 then .ok (ino.blockWord logical_block)
  else
    let block_idx := logical_block - 12
    if block_idx < addr_per_block then
      let indirect_block := ino.blockWord 12
      if indirect_block = 0 then .ok 0
      else do
        let block_data := v.read_block indirect_block
        readU32InBlock block_data (block_idx * 4)
    else
      let block_idx := block_idx - addr_per_block
      if block_idx < addr_per_block * addr_per_block then
        let double_indirect := ino.blockWord 13
        if double_indirect = 0 then .ok 0
        else do
          let first_level_idx := block_idx / addr_per_block
          let second_level_idx := block_idx % addr_per_block
          let first_level_data := v.read_block double_indirect
          let indirect_block ← readU32InBlock first_level_data (first_level_idx * 4)
          if indirect_block = 0 then .ok 0
          else do
            let second_level_data := v.read_block indirect_block
            readU32InBlock second_level_data (second_level_idx * 4)
      else
        let block_idx := block_idx - addr_per_block * addr_per_block
        let triple_indirect := ino.blockWord 14
        if triple_indirect = 0 then .ok 0
        else do
          let first_level_idx := block_idx / (addr_per_block * addr_per_block)
          let second_level_idx := block_idx / addr_per_block % addr_per_block
          let third_level_idx := block_idx % addr_per_block
          let first_level_data := v.read_block triple_indirect
          let double_indirect ← readU32InBlock first_level_data (first_level_idx * 4)
          if double_indirect = 0 then .ok 0
          else do
            let second_level_data := v.read_block double_indirect
            let indirect_block ← readU32InBlock second_level_data (second_level_idx * 4)
            if indirect_block = 0 then .ok 0
            else do
              let third_level_data := v.read_block indirect_block
              readU32InBlock third_level_data (third_level_idx * 4)

/-- The `for extent in extents` loop of the extents branch of
`Volume::read_inode_data` (src/ext4/volume.rs lines 174-201). Note that the
branch never consults `is_unwritten`: every intersecting extent is read from
its physical blocks. -/
def Volume.extReadLoop (v : Volume) (offset actual_length : Nat) :
    List Extent → List Nat → Nat → Except Err (List Nat)
  | [], result, _ => .ok result
  | extent :: rest, result, bytes_read =>
    let extent_start := extent.first_block * v.block_size
    let extent_end := extent_start + extent.get_actual_len * v.block_size
    if offset < extent_end ∧ offset + actual_length > extent_start then do
      let read_start := offset - extent_start
      let read_end := min (extent_end - extent_start) (offset + actual_length - extent_start)
      let physical_block := extent.start_block
      let physical_offset := physical_block * v.block_size + read_start
      let to_read := read_end - read_start
      let result ← writeRange result bytes_read (diskBytes v.reader physical_offset to_read)
      let bytes_read := bytes_read + to_read
      if bytes_read ≥ actual_length then .ok result
      else Volume.extReadLoop v offset actual_length rest result bytes_read
    else Volume.extReadLoop v offset actual_length rest result bytes_read

/-- The `for block_idx in start_block..end_block` loop of the indirect
branch of `Volume::read_inode_data` (src/ext4/volume.rs lines 207-248):
blocks resolving to physical block 0 are zero-filled, others are read. -/
def Volume.indReadLoop (v : Volume) (ino : Inode)
    (offset actual_length start_block end_block : Nat) (block_idx : Nat)
    (bytes_read : Nat) (result : List Nat) : Except Err (List Nat) :=
  if _h : block_idx < end_block then do
    let physical_block ← v.get_block_from_inode ino block_idx
    let step ←
      if physical_block = 0 then do
        let block_offset := if block_idx = start_block then offset % v.block_size else 0
        let to_read := min (v.block_size - block_offset) (actual_length - bytes_read)
        let r ← writeRange result bytes_read (List.replicate to_read 0)
        pure (r, to_read)
      else do
        let block_offset := if block_idx = start_block then offset % v.block_size else 0
        let physical_offset := physical_block * v.block_size + block_offset
        let to_read := min (v.block_size - block_offset) (actual_length - bytes_read)
        let r ← writeRange result bytes_read (diskBytes v.reader physical_offset to_read)
        pure (r, to_read)
    let result := step.1
    let bytes_read := bytes_read + step.2
    if bytes_read ≥ actual_length then .ok result
    else Volume.indReadLoop v ino offset actual_length start_block end_block (block_idx + 1) bytes_read result
  else .ok result
termination_by end_block - block_idx

/-- `Volume::read_inode_data` (src/ext4/volume.rs lines 155-252): reject
`offset >= file_size` with `ReadBeyondEof`, clamp the length to
`min(length, file_size - offset)`, then fill a zero-initialised buffer via
the extents branch or the indirect branch. `fuel` bounds the embedded
extent-tree recursion only. -/
def Volume.read_inode_data (v : Volume) (fuel : Nat) (ino : Inode)
    (offset : Nat) (length : Nat) : Except Err (List Nat) :=
  let file_size := v.superblock.inode_size_file ino
  if offset ≥ file_size then .error .readBeyondEof
  else
    let actual_length := min length (file_size - offset)
    let result := List.replicate actual_length 0
    if ino.uses_extents then do
      let extents ← v.parse_extent_tree fuel ino.block
      Volume.extReadLoop v offset actual_length extents result 0
    else
      let start_block := offset / v.block_size
      let end_block := (offset + actual_length + v.block_size - 1) / v.block_size
      Volume.indReadLoop v ino offset actual_length start_block end_block
        start_block 0 result

/-- The file-type nibble `mode & 0xF000` (`Inode::MODE_TYPE_MASK`). -/
def Inode.typeNibble (ino : Inode) : Nat := ino.mode % 65536 / 4096 * 4096

/-- `Inode::is_directory`: `FileType::from_mode` yields `Directory`
(`mode & 0xF000 == 0x4000`). -/
def Inode.is_directory (ino : Inode) : Bool := ino.typeNibble = 0x4000

/-- `Inode::is_regular_file` (`mode & 0xF000 == 0x8000`). -/
def Inode.is_regular_file (ino : Inode) : Bool := ino.typeNibble = 0x8000

/-- `Inode::is_symlink` (`mode & 0xF000 == 0xA000`). -/
def Inode.is_symlink (ino : Inode) : Bool := ino.typeNibble = 0xA000

/-- `struct DirectoryEntry` (src/ext4/mod.rs lines 87-95); `name` models the
`[u8; 255]` zero-padded array. -/
structure DirectoryEntry where
  inode : Nat
  entry_len : Nat
  name_len : Nat
  inode_type : Nat
  name : List Nat
  deriving Repr, DecidableEq

/-- The `[u8; 255]` name array built for one emitted entry
(src/ext4/volume.rs lines 429-434): zero-initialised, then the first
`min(name_len, 255)` bytes are copied from the data when the copy source
lies inside the buffer. -/
def dirEntryName (data : List Nat) (offset name_len : Nat) : List Nat :=
  let actual_name_len := min name_len 255
  if offset + 8 + actual_name_len ≤ data.length then
    bufTake data (offset + 8) actual_name_len ++ List.replicate (255 - actual_name_len) 0
  else List.replicate 255 0

/-- The `while offset < data.len()` loop of `Volume::read_directory_entries`
(src/ext4/volume.rs lines 408-446), parameterised by the running offset:
stop when fewer than 8 header bytes remain, when `rec_len == 0`, or when
`rec_len` exceeds the remaining bytes; skip entries with inode number 0 but
still advance by their `rec_len`. (`Directory::parse_entries` in
src/ext4/directory.rs lines 58-106 is the identical loop.) -/
def parseDirEntriesFrom (data : List Nat) (offset : Nat) : List DirectoryEntry :=
  if _hlt : offset < data.length then
    if offset + 8 > data.length then []
    else
      let inode_num := leU32 data offset
      let entry_len := leU16 data (offset + 4)
      if hstop : entry_len = 0 ∨ entry_len > data.length - offset then []
      else
        let rest := parseDirEntriesFrom data (offset + entry_len)
        if inode_num ≠ 0 then
          { inode := inode_num
            entry_len := entry_len
            name_len := byteAt data (offset + 6)
            inode_type := byteAt data (offset + 7)
            name := dirEntryName data offset (byteAt data (offset + 6)) } :: rest
        else rest
  else []
termination_by data.length - offset
decreasing_by
  push_neg at hstop
  omega

/-- `Volume::read_directory_entries` (src/ext4/volume.rs lines 397-449). -/
def Volume.read_directory_entries (v : Volume) (fuel : Nat) (ino : Inode) :
    Except Err (List DirectoryEntry) :=
  if ¬ ino.is_directory then .error .notADirectory
  else do
    let file_size := v.superblock.inode_size_file ino
    let data ← v.read_inode_data fuel ino 0 file_size
    .ok (parseDirEntriesFrom data 0)

/-- `enum XAttrNameIndex` (src/ext4/xattr.rs lines 79-90). -/
inductive XAttrNameIndex where
  | noPre
  | user
  | systemPosixAclAccess
  | systemPosixAclDefault
  | trusted
  | security
  | system
  | systemRichAcl
  deriving Repr, DecidableEq

/-- The `repr(u8)` discriminant of each `XAttrNameIndex` value. -/
def XAttrNameIndex.val : XAttrNameIndex → Nat
  | .noPre => 0
  | .user => 1
  | .systemPosixAclAccess => 2
  | .systemPosixAclDefault => 3
  | .trusted => 4
  | .security => 6
  | .system => 7
  | .systemRichAcl => 8

/-- The nom-derived decoder of `XAttrNameIndex`: a byte that is not a
declared discriminant is a parse error. -/
def XAttrNameIndex.ofByte : Nat → Option XAttrNameIndex
  | 0 => some .noPre
  | 1 => some .user
  | 2 => some .systemPosixAclAccess
  | 3 => some .systemPosixAclDefault
  | 4 => some .trusted
  | 6 => some .security
  | 7 => some .system
  | 8 => some .systemRichAcl
  | _ => none

/-- `struct XAttrEntryHeader` (src/ext4/xattr.rs lines 47-56). -/
structure XAttrEntryHeader where
  name_len : Nat
  name_index : XAttrNameIndex
  value_offs : Nat
  value_inum : Nat
  value_size : Nat
  hash : Nat
  deriving Repr, DecidableEq

/-- `XAttrEntryHeader::parse`: the nom-derived little-endian field sequence
`u8, u8 (enum), u16, u32, u32, u32`, 16 bytes in all. -/
def XAttrEntryHeader.parse (bytes : List Nat) : Except Err XAttrEntryHeader :=
  if bytes.length < 16 then .error .parse
  else
    match XAttrNameIndex.ofByte (byteAt bytes 1) with
    | none => .error .parse
    | some idx => .ok {
        name_len := byteAt bytes 0
        name_index := idx
        value_offs := leU16 bytes 2
        value_inum := leU32 bytes 4
        value_size := leU32 bytes 8
        hash := leU32 bytes 12 }

/-- `XAttrEntryHeader::is_end_of_entries` (src/ext4/xattr.rs lines 66-69):
the bit-or of `name_len`, `name_index`, `value_offs` and `value_inum`
is zero, i.e. all four fields are zero. -/
def XAttrEntryHeader.is_end_of_entries (h : XAttrEntryHeader) : Bool :=
  h.name_len = 0 ∧ h.name_index.val = 0 ∧ h.value_offs = 0 ∧ h.value_inum = 0

/-- `struct XAttrEntry` (src/ext4/xattr.rs lines 72-77); the decoded name is
kept as its raw bytes (`String::from_utf8_lossy` is byte-identical on valid
UTF-8 names, the only names ext4 writes). -/
structure XAttrEntry where
  header : XAttrEntryHeader
  name : List Nat
  value : List Nat
  deriving Repr, DecidableEq

/-- `XAttrEntry::HEADER_SIZE`. -/
def XAttrEntry.HEADER_SIZE : Nat := 16

/-- `XAttrEntry::entry_size` (src/ext4/xattr.rs lines 123-127):
`(HEADER_SIZE + name.len() + 3) & !3`. -/
def XAttrEntry.entry_size (e : XAttrEntry) : Nat :=
  (XAttrEntry.HEADER_SIZE + e.name.length + 3) / 4 * 4

/-- Rust `slice.get(start..stop)`: `some` of the sub-slice when the range is
within bounds, `none` otherwise. -/
def listGetRange (b : List Nat) (start stop : Nat) : Option (List Nat) :=
  if start ≤ stop ∧ stop ≤ b.length then some ((b.drop start).take (stop - start))
  else none

/-- The `while pos + HEADER_SIZE <= raw_data.len()` loop of
`Inode::parse_inline_xattr_entries` (src/ext4/inode.rs lines 97-138):
header-parse failure, the all-zero terminator and an out-of-bounds name all
stop the loop; a value is extracted only when `value_inum == 0` and
`value_size > 0`, at offset `value_offs` RELATIVE TO THIS BUFFER (which the
caller starts 4 bytes into the ibody, after the magic). -/
def parseInlineXattrLoop (raw_data : List Nat) (pos : Nat) : List XAttrEntry :=
  if _h : pos + XAttrEntry.HEADER_SIZE ≤ raw_data.length then
    let start_offset := pos + XAttrEntry.HEADER_SIZE
    match XAttrEntryHeader.parse (raw_data.drop pos) with
    | .error _ => []
    | .ok header =>
      if header.is_end_of_entries then []
      else
        match listGetRange raw_data start_offset (start_offset + header.name_len) with
        | none => []
        | some name =>
          let value :=
            if header.value_inum = 0 ∧ header.value_size > 0 then
              (listGetRange raw_data header.value_offs
                (header.value_offs + header.value_size)).getD []
            else []
          let entry : XAttrEntry := { header := header, name := name, value := value }
          entry :: parseInlineXattrLoop raw_data (pos + entry.entry_size)
  else []
termination_by raw_data.length - pos
decreasing_by
  simp only [XAttrEntry.entry_size, XAttrEntry.HEADER_SIZE] at *
  omega

/-- `struct XAttrIbodyHeader` (src/ext4/xattr.rs lines 31-34): a single u32
magic, nom-verified to equal `0xEA020000`. -/
def XAttrIbodyHeader.parse (bytes : List Nat) : Except Err Nat :=
  if bytes.length < 4 then .error .parse
  else if leU32 bytes 0 = 0xEA020000 then .ok (leU32 bytes 0)
  else .error .parse

/-- The inline-xattr decoding of `Inode::parse` (src/ext4/inode.rs lines
86-92) applied to the ibody trailer buffer (the inode bytes from
`128 + extra_isize` on): validate the 4-byte magic, then run the entry loop
on the bytes AFTER the magic, so an entry's `value_offs` is at absolute
ibody offset `4 + value_offs`. -/
def Inode.inlineXattrsOfIbody (inline_data : List Nat) : Except Err (List XAttrEntry) :=
  if inline_data.length ≥ 4 then do
    let _ ← XAttrIbodyHeader.parse inline_data
    if inline_data.length > 4 then
      .ok (parseInlineXattrLoop (inline_data.drop 4) 0)
    else .ok []
  else .ok []

/-- `struct XAttrHeader` (src/ext4/xattr.rs lines 8-16): u32 magic
(nom-verified `0xEA020000`), four more u32 fields, 12 reserved bytes. -/
structure XAttrHeader where
  magic : Nat
  refcount : Nat
  blocks : Nat
  hash : Nat
  checksum : Nat
  deriving Repr, DecidableEq

/-- `XAttrHeader::SIZE`. -/
def XAttrHeader.SIZE : Nat := 32

/-- `XAttrHeader::parse`. -/
def XAttrHeader.parse (bytes : List Nat) : Except Err XAttrHeader :=
  if bytes.length < 32 then .error .parse
  else if leU32 bytes 0 = 0xEA020000 then
    .ok {
      magic := leU32 bytes 0
      refcount := leU32 bytes 4
      blocks := leU32 bytes 8
      hash := leU32 bytes 12
      checksum := leU32 bytes 16 }
  else .error .parse

/-- The `while pos + HEADER_SIZE <= raw_data.len()` loop of `parse_xattrs`
(src/ext4/xattr.rs lines 207-257). `value_offset_adjustment` is added to
`value_offs` as an `isize`; a negative sum cast `as usize` becomes a huge
value (here: at least `2^63`), which always fails the bounds check, so the
value defaults to empty in that case. -/
def parseXattrsLoop (raw_data : List Nat) (value_offset_adjustment : Int) (pos : Nat)
    (acc : List XAttrEntry) : Except Err (List XAttrEntry) :=
  if _h : pos + XAttrEntry.HEADER_SIZE ≤ raw_data.length then do
    let header ← XAttrEntryHeader.parse (raw_data.drop pos)
    if header.is_end_of_entries then .ok acc
    else
      match listGetRange raw_data (pos + XAttrEntry.HEADER_SIZE)
          (pos + XAttrEntry.HEADER_SIZE + header.name_len) with
      | none => .error .parse
      | some name =>
        let value :=
          if header.value_inum ≠ 0 then []
          else if header.value_size > 0 then
            let actual_offset : Int := (header.value_offs : Int) + value_offset_adjustment
            if 0 ≤ actual_offset ∧ actual_offset.toNat < raw_data.length ∧
                actual_offset.toNat + header.value_size ≤ raw_data.length then
              (raw_data.drop actual_offset.toNat).take header.value_size
            else []
          else []
        let entry : XAttrEntry := { header := header, name := name, value := value }
        parseXattrsLoop raw_data value_offset_adjustment (pos + entry.entry_size)
          (acc ++ [entry])
  else .ok acc
termination_by raw_data.length - pos
decreasing_by
  simp only [XAttrEntry.entry_size, XAttrEntry.HEADER_SIZE] at *
  omega

/-- `parse_xattrs` (src/ext4/xattr.rs lines 207-257). -/
def parse_xattrs (raw_data : List Nat) (value_offset_adjustment : Int) :
    Except Err (List XAttrEntry) :=
  parseXattrsLoop raw_data value_offset_adjustment 0 []

/-- `parse_xattrs_from_block` (src/ext4/xattr.rs lines 260-278): validate the
32-byte block header, then run the entry loop on the bytes from offset 32
with adjustment `-32`, so an entry's `value_offs` is an absolute offset
within the block. -/
def parse_xattrs_from_block (block_data : List Nat) : Except Err (List XAttrEntry) :=
  if block_data.length < XAttrHeader.SIZE then .ok []
  else do
    let _ ← XAttrHeader.parse block_data
    let entries_start := (XAttrHeader.SIZE + 3) / 4 * 4
    if entries_start ≥ block_data.length then .ok []
    else parse_xattrs (block_data.drop entries_start) (-(entries_start : Int))

/-- Modelled from the spec: `Inode::size` (called by src/ext4/file.rs and
src/ext4/inode_reader.rs; its definition is not among the sources). Spec
section 3: 32/32 size lo/hi, the high half valid for regular files. -/
def Inode.size64 (ino : Inode) : Nat :=
  if ino.is_regular_file then ino.size + ino.size_hi * 4294967296 else ino.size

/-- Modelled from the spec: `Inode::is_fast_symlink` (called by
src/ext4/inode_reader.rs; its definition is not among the sources). Spec
section 4.C: for symlink inodes, `file_size < 60` means a fast symlink
(`Inode::FAST_SYMLINK_MAX_SIZE` is 60 in src/ext4/inode.rs). -/
def Inode.is_fast_symlink (ino : Inode) : Bool :=
  ino.is_symlink ∧ ino.size64 < 60

/-- Modelled from the spec: `ADDR_SIZE` (imported by src/ext4/inode_reader.rs
from the ext4 module; its definition is not among the sources). Spec section
3: each indirect block holds `block_size / 4` 32-bit (4-byte) pointers. -/
def ADDR_SIZE : Nat := 4

/-- `struct InodeReader` (src/ext4/inode_reader.rs lines 13-17). -/
structure InodeReader where
  reader : Disk
  block_size : Nat
  inode : Inode

/-- `InodeReader::read_block` (src/ext4/inode_reader.rs lines 145-153). -/
def InodeReader.read_block (r : InodeReader) (block_num : Nat) : List Nat :=
  diskBytes r.reader (block_num * r.block_size) r.block_size

/-- `InodeReader::read_block_addr` (src/ext4/inode_reader.rs lines 155-162):
block number 0 short-circuits to 0, otherwise the `index`-th 32-bit word of
the block is read. -/
def InodeReader.read_block_addr (r : InodeReader) (block_num index : Nat) :
    Except Err Nat :=
  if block_num = 0 then .ok 0
  else
    let block_data := r.read_block block_num
    readU32InBlock block_data (index * ADDR_SIZE)

/-- `InodeReader::resolve_block` (src/ext4/inode_reader.rs lines 164-196). -/
def InodeReader.resolve_block (r : InodeReader) (inode_block : List Nat)
    (logical_block : Nat) : Except Err Nat :=
  let addr_per_block := r.block_size / 4
  if logical_block < 12 then .ok (inode_block.getD logical_block 0)
  else
    let block_idx := logical_block - 12
    if block_idx < addr_per_block then
      r.read_block_addr (inode_block.getD 12 0) block_idx
    else
      let block_idx := block_idx - addr_per_block
      if block_idx < addr_per_block * addr_per_block then do
        let indirect ← r.read_block_addr (inode_block.getD 13 0) (block_idx / addr_per_block)
        r.read_block_addr indirect (block_idx % addr_per_block)
      else
        let block_idx := block_idx - addr_per_block * addr_per_block
        do
          let double ← r.read_block_addr (inode_block.getD 14 0)
            (block_idx / (addr_per_block * addr_per_block))
          let indirect ← r.read_block_addr double (block_idx / addr_per_block % addr_per_block)
          r.read_block_addr indirect (block_idx % addr_per_block)

/-- `InodeReader::parse_extent_tree` (src/ext4/inode_reader.rs lines
198-224): its body, including the recursive `parse_extent_tree_from_block`,
is the same text as the `Volume` version embedded above, so the embedding
reuses that definition (only `reader` and `block_size` are consulted). -/
def InodeReader.parse_extent_tree (r : InodeReader) (fuel : Nat)
    (block : List Nat) : Except Err (List Extent) :=
  Volume.parse_extent_tree
    { reader := r.reader, superblock := {}, block_size := r.block_size } fuel block

/-- `InodeReader::read_fast_symlink` (src/ext4/inode_reader.rs lines 64-75):
the buffer of length `bufLen` is overwritten with
`inline_data[offset .. offset + bufLen]`. -/
def InodeReader.read_fast_symlink (r : InodeReader) (offset bufLen : Nat) :
    Except Err (List Nat) :=
  let inline_data := wordsToBytes r.inode.block
  sliceRange inline_data offset (offset + bufLen)

/-- The `for extent in extents` loop of `InodeReader::read_via_extents`
(src/ext4/inode_reader.rs lines 81-104). As in the `Volume` version, the
unwritten flag only shortens `extent_len`; intersecting bytes are always
read from the physical blocks. -/
def InodeReader.extLoop (r : InodeReader) (offset : Nat) :
    List Extent → List Nat → Nat → Except Err (List Nat)
  | [], buf, _ => .ok buf
  | extent :: rest, buf, bytes_read =>
    let extent_start := extent.first_block * r.block_size
    let extent_len := extent.get_actual_len * r.block_size
    let extent_end := extent_start + extent_len
    if offset + buf.length ≤ extent_start ∨ offset ≥ extent_end then
      InodeReader.extLoop r offset rest buf bytes_read
    else do
      let read_start := offset - extent_start
      let read_end := min extent_len (offset + buf.length - extent_start)
      let to_read := read_end - read_start
      let physical_offset := extent.start_block * r.block_size + read_start
      let buf2 ← writeRange buf bytes_read (diskBytes r.reader physical_offset to_read)
      let bytes_read := bytes_read + to_read
      if bytes_read ≥ buf2.length then .ok buf2
      else InodeReader.extLoop r offset rest buf2 bytes_read

/-- The `for block_idx in start_block..end_block` loop of
`InodeReader::read_via_indirect` (src/ext4/inode_reader.rs lines 116-140). -/
def InodeReader.indLoop (r : InodeReader) (offset start_block end_block : Nat)
    (block_idx bytes_read : Nat) (buf : List Nat) : Except Err (List Nat) :=
  if _h : block_idx < end_block then do
    let block_offset := if block_idx = start_block then offset % r.block_size else 0
    let to_read := min (r.block_size - block_offset) (buf.length - bytes_read)
    let physical_block ← r.resolve_block r.inode.block block_idx
    let buf2 ←
      if physical_block = 0 then writeRange buf bytes_read (List.replicate to_read 0)
      else writeRange buf bytes_read (diskBytes r.reader (physical_block * r.block_size + block_offset) to_read)
    InodeReader.indLoop r offset start_block end_block (block_idx + 1) (bytes_read + to_read) buf2
  else .ok buf
termination_by end_block - block_idx

/-- `InodeReader::read_data` (src/ext4/inode_reader.rs lines 42-61): reject
`offset >= file_size` with `ReadBeyondEof`, clamp the length, then fill via
the fast-symlink, extents or indirect branch. -/
def InodeReader.read_data (r : InodeReader) (fuel : Nat) (offset length : Nat) :
    Except Err (List Nat) :=
  let file_size := r.inode.size64
  if offset ≥ file_size then .error .readBeyondEof
  else
    let actual_length := min length (file_size - offset)
    let buf := List.replicate actual_length 0
    if r.inode.is_fast_symlink then
      r.read_fast_symlink offset buf.length
    else if r.inode.uses_extents then do
      let extents ← r.parse_extent_tree fuel r.inode.block
      InodeReader.extLoop r offset extents buf 0
    else
      let start_block := offset / r.block_size
      let end_block := (offset + buf.length + r.block_size - 1) / r.block_size
      InodeReader.indLoop r offset start_block end_block start_block 0 buf

/-- `struct File` (src/ext4/file.rs lines 7-12): the inode, the current
position and the reader the `InodeReader` was built over. -/
structure File where
  reader : Disk
  block_size : Nat
  inode : Inode
  position : Nat

/-- `File::size`: `self.inode.size()`. -/
def File.size (f : File) : Nat := f.inode.size64

/-- `<File as Read>::read` (src/ext4/file.rs lines 67-86): at or past EOF
return `Ok(0)` without touching the position; otherwise clamp, call the
underlying `InodeReader::read_data`, copy into the caller's buffer and
advance the position. The result pairs the returned byte count with the
updated file handle. -/
def File.read (f : File) (fuel : Nat) (bufLen : Nat) : Except Err (Nat × File) :=
  if f.position ≥ f.size then .ok (0, f)
  else
    let to_read := min bufLen (f.size - f.position)
    match InodeReader.read_data
        { reader := f.reader, block_size := f.block_size, inode := f.inode }
        fuel f.position to_read with
    | .error e => .error e
    | .ok data =>
      let bytes_read := data.length
      if bytes_read ≤ bufLen then
        .ok (bytes_read, { f with position := f.position + bytes_read })
      else .error .panic

/-- `DirectoryEntry::name_str` (src/ext4/mod.rs lines 98-101), kept as the
raw name bytes `name[..name_len]` (`from_utf8(..).unwrap_or("")` is
byte-identical on valid UTF-8, and the walker's only uses are byte-exact
comparisons with "." and ".." and path suffixing). -/
def DirectoryEntry.nameStr (e : DirectoryEntry) : List Nat :=
  e.name.take e.name_len

/-- `struct WalkEntry` (src/ext4/walker.rs lines 18-21): a pending frame of
the depth-first stack; paths are component lists of name-byte lists. -/
structure WalkEntry where
  path : List (List Nat)
  entries : List DirectoryEntry

/-- The volume operations `DirectoryWalker::next` invokes, abstracted as an
environment: `read_inode` is `Volume::read_inode`; `dir_new` is the fallible
construction `Directory::new` (which parses the subdirectory's entries);
`dir_entries` is the `directory.entries()` call; `read_xattrs` is
`Volume::read_xattrs` (used through `unwrap_or_default`). -/
structure WalkerEnv where
  read_inode : Nat → Except Err Inode
  dir_new : Inode → List (List Nat) → Except Err Unit
  dir_entries : Inode → List (List Nat) → Except Err (List DirectoryEntry)
  read_xattrs : Inode → Except Err (List XAttrEntry)

/-- `struct WalkItem` (src/ext4/walker.rs lines 72-77); `EntryAttributes` is
carried as the raw xattr list the walker fetched (mode/uid/gid come from the
inode, selinux/capabilities are find-maps over this list). -/
structure WalkItem where
  path : List (List Nat)
  entry : DirectoryEntry
  inode : Inode
  xattrs : List XAttrEntry

/-- `struct DirectoryWalker` (src/ext4/walker.rs lines 13-16): the stack of
pending frames; the head of the list is the top of the `Vec` (its end). -/
structure DirectoryWalker where
  stack : List WalkEntry

/-- `<DirectoryWalker as Iterator>::next` (src/ext4/walker.rs lines
130-183), returning the yielded item (if any) together with the mutated
walker. `current.entries.pop()` takes from the END of the entries vector
(`getLast?` / `dropLast`). NOTE the `Directory::new(..).ok()?` on line 153:
a FAILED subdirectory construction makes `next` return `None` — ending the
stream — instead of yielding the error. -/
def DirectoryWalker.next (env : WalkerEnv) (w : DirectoryWalker) :
    Option (Except Err WalkItem) × DirectoryWalker :=
  match hs : w.stack with
  | [] => (none, w)
  | current :: rest =>
    match he : current.entries.getLast? with
    | none => DirectoryWalker.next env ⟨rest⟩
    | some entry =>
      let current2 : WalkEntry := { current with entries := current.entries.dropLast }
      let entry_name := entry.nameStr
      if entry_name = [46] ∨ entry_name = [46, 46] then
        DirectoryWalker.next env ⟨current2 :: rest⟩
      else
        let item_path := current.path ++ [entry_name]
        match env.read_inode entry.inode with
        | .error e => (some (.error e), ⟨current2 :: rest⟩)
        | .ok inode =>
          if inode.is_directory then
            match env.dir_new inode item_path with
            | .error _ => (none, ⟨current2 :: rest⟩)
            | .ok _ =>
              match env.dir_entries inode item_path with
              | .error e => (some (.error e), ⟨current2 :: rest⟩)
              | .ok entries2 =>
                let xattrs := match env.read_xattrs inode with
                  | .ok xs => xs
                  | .error _ => []
                (some (.ok { path := item_path, entry := entry, inode := inode,
                             xattrs := xattrs }),
                 ⟨{ path := item_path, entries := entries2 } :: current2 :: rest⟩)
          else
            let xattrs := match env.read_xattrs inode with
              | .ok xs => xs
              | .error _ => []
            (some (.ok { path := item_path, entry := entry, inode := inode,
                         xattrs := xattrs }),
             ⟨current2 :: rest⟩)
termination_by (w.stack.map (fun f => f.entries.length)).sum + w.stack.length
decreasing_by
  · rw [hs]
    simp only [List.map_cons, List.sum_cons, List.length_cons]
    omega
  · rw [hs]
    have hne : current.entries ≠ [] := by
      intro hnil
      rw [hnil] at he
      simp at he
    have hlen : 0 < current.entries.length := List.length_pos.mpr hne
    simp only [List.map_cons, List.sum_cons, List.length_cons, List.length_dropLast]
    omega

/-- Error type of src/utils.rs (`utils::Error`), restricted to the variants
path normalization produces; `panic` models the `unreachable!()` arm. -/
inductive UtilsErr where
  | invalidPath (reason : String)
  | panic
  deriving Repr, DecidableEq

/-- `std::path::Component`, for Unix paths (the `Prefix` variant, spelled
`drive` here, never arises on Unix but the source matches on it). -/
inductive PathComp where
  | rootDir
  | curDir
  | parentDir
  | drive (s : String)
  | normal (s : String)
  deriving Repr, DecidableEq

/-- The `for component in iter` loop of `NormalizePath::normalize`
(src/utils.rs lines 161-184). `lexical` models the `PathBuf` as its
component list and `root` is the recorded component count of the root part:
after the root is consumed, only nonempty `Normal` components are pushed or
popped, and each changes `lexical.as_os_str().len()` by at least one while
changing the component count by exactly one, so the source's
`lexical.as_os_str().len() == root` test holds exactly when
`lexical.length = root`. `PathBuf::pop` is `dropLast`. -/
def NormalizePath.normalizeLoop (components : List PathComp) (lexical : List PathComp)
    (root : Nat) : Except UtilsErr (List PathComp) :=
  match components with
  | [] => .ok lexical
  | .rootDir :: _ => .error .panic
  | .drive _ :: _ => .error (.invalidPath "unexpected prefix in middle of path")
  | .curDir :: rest => NormalizePath.normalizeLoop rest lexical root
  | .parentDir :: rest =>
    if lexical.length = root then
      .error (.invalidPath "parent directory reference goes above root")
    else NormalizePath.normalizeLoop rest lexical.dropLast root
  | .normal s :: rest => NormalizePath.normalizeLoop rest (lexical ++ [.normal s]) root

/-- `NormalizePath::normalize` (src/utils.rs lines 130-186) on the
component sequence of the input path: reject a leading `..`, consume the
root part (recording its length), then run the component loop. -/
def NormalizePath.normalize (p : List PathComp) : Except UtilsErr (List PathComp) :=
  match p with
  | [] => .ok []
  | .parentDir :: _ =>
    .error (.invalidPath "path cannot start with parent directory reference")
  | .rootDir :: rest => NormalizePath.normalizeLoop rest [.rootDir] 1
  | .curDir :: rest => NormalizePath.normalizeLoop rest [.curDir] 1
  | .drive s :: .rootDir :: rest => NormalizePath.normalizeLoop rest [.drive s, .rootDir] 2
  | .drive s :: rest => NormalizePath.normalizeLoop rest [.drive s] 1
  | .normal _ :: _ => NormalizePath.normalizeLoop p [] 0

/-- Every byte of an all-zero buffer reads as zero. -/
theorem byteAt_replicate_zero (n i : Nat) : byteAt (List.replicate n 0) i = 0 := by
  simp only [byteAt, List.getD_eq_getElem?_getD, List.getElem?_replicate]
  split <;> simp

/-- An all-zero image yields all-zero read buffers. -/
theorem diskBytes_zero (s n : Nat) : diskBytes (fun _ => 0) s n = List.replicate n 0 := by
  simp [diskBytes, List.map_const']

/-- `Superblock::parse` accepts the all-zero 1024-byte buffer (whose magic
field is 0, not 0xEF53) and yields the all-zero superblock. -/
theorem superblockParse_zero : Superblock.parse (List.replicate 1024 0) = .ok { } := by
  simp only [Superblock.parse, List.length_replicate]
  rw [if_neg (by norm_num)]
  simp only [Except.ok.injEq, Superblock.mk.injEq, leU32, leU16, leU64,
    byteAt_replicate_zero, bufTake, leU32Vec, List.drop_replicate, List.take_replicate,
    List.map_replicate, List.map_const', List.length_range, Nat.zero_mod, mul_zero, add_zero]
  norm_num

/-- C1: the claim says any buffer whose 16-bit LE field at offset 56 differs
from 0xEF53 makes `Superblock::parse` (and `Volume::new`) return an
invalid-magic error. The code never checks the magic: on the all-zero
1024-byte buffer (magic field 0, not 0xEF53) `Superblock::parse` succeeds
with the all-zero superblock, and `Volume::new` over an all-zero image
succeeds as well. -/
theorem C1_superblock_magic_not_validated :
    Superblock.parse (List.replicate 1024 0) = .ok { } ∧
    ({ } : Superblock).magic ≠ Superblock.EXT4_SUPERBLOCK_MAGIC ∧
    (Volume.new (fun _ => 0)).okB = true := by
  refine ⟨superblockParse_zero, by decide, ?_⟩
  have h : Superblock.parse (diskBytes (fun _ => 0) Superblock.SUPERBLOCK_OFFSET 1024) =
      .ok { } := by rw [diskBytes_zero]; exact superblockParse_zero
  simp [Volume.new, h, Except.okB, bind, Except.bind]

/-- `Except` bind on a success, for rewriting do-blocks. -/
theorem exceptBindOk {ε α β : Type} (a : α) (f : α → Except ε β) :
    (Except.ok a >>= f) = f a := rfl

/-- `Except` bind on an error, for rewriting do-blocks. -/
theorem exceptBindErr {ε α β : Type} (e : ε) (f : α → Except ε β) :
    ((Except.error e : Except ε α) >>= f) = .error e := rfl

/-- `Except` bind after a `pure`, for rewriting do-blocks. -/
theorem exceptPureBind {ε α β : Type} (a : α) (f : α → Except ε β) :
    ((pure a : Except ε α) >>= f) = f a := rfl

/-- Inversion of a successful `Except` bind. -/
theorem bindOkElim {ε α β : Type} {x : Except ε α} {f : α → Except ε β} {b : β}
    (h : (x >>= f) = .ok b) : ∃ a, x = .ok a ∧ f a = .ok b := by
  cases x with
  | ok a => exact ⟨a, rfl, h⟩
  | error e => exact absurd h (by simp [Bind.bind, Except.bind])

/-- A successful `writeRange` preserves the buffer length. -/
theorem writeRange_ok_length {dst src out : List Nat} {start : Nat}
    (h : writeRange dst start src = .ok out) : out.length = dst.length := by
  unfold writeRange at h
  split at h
  · rename_i hle
    injection h with h
    subst h
    simp only [List.length_append, List.length_take, List.length_drop]
    omega
  · exact absurd h (by simp)

/-- The extents-branch copy loop preserves the buffer length. -/
theorem extReadLoop_ok_length (v : Volume) (offset actual : Nat) :
    ∀ exts result bytes_read out,
      Volume.extReadLoop v offset actual exts result bytes_read = .ok out →
      out.length = result.length := by
  intro exts
  induction exts with
  | nil =>
    intro result bytes_read out h
    simp only [Volume.extReadLoop] at h
    injection h with h
    rw [h]
  | cons e rest ih =>
    intro result bytes_read out h
    simp only [Volume.extReadLoop] at h
    split at h
    · obtain ⟨mid, hw, h⟩ := bindOkElim h
      try dsimp only at h
      have hmid := writeRange_ok_length hw
      split at h
      · injection h with h
        rw [← h]
        exact hmid
      · rw [ih _ _ _ h]
        exact hmid
    · exact ih _ _ _ h

/-- The indirect-branch block loop preserves the buffer length. -/
theorem indReadLoop_ok_length (v : Volume) (ino : Inode)
    (offset actual startB endB : Nat) :
    ∀ n k bytes_read result out, endB - k ≤ n →
      Volume.indReadLoop v ino offset actual startB endB k bytes_read result = .ok out →
      out.length = result.length := by
  intro n
  induction n with
  | zero =>
    intro k bytes_read result out hn h
    rw [Volume.indReadLoop, dif_neg (by omega)] at h
    injection h with h
    rw [h]
  | succ n ihn =>
    intro k bytes_read result out hn h
    rw [Volume.indReadLoop] at h
    split at h
    · rename_i hk
      simp only [exceptPureBind] at h
      obtain ⟨pb, hpb, h⟩ := bindOkElim h
      try dsimp only at h
      split at h
      · obtain ⟨r, hr, h⟩ := bindOkElim h
        have hrl := writeRange_ok_length hr
        have hfin : ∀ tr, (if bytes_read + tr ≥ actual then Except.ok r
            else v.indReadLoop ino offset actual startB endB (k + 1) (bytes_read + tr) r) = .ok out →
            out.length = result.length := by
          intro tr hif
          split at hif
          · injection hif with hif
            rw [← hif]
            exact hrl
          · rw [ihn (k + 1) _ _ _ (by omega) hif]
            exact hrl
        exact hfin _ h
      · obtain ⟨r, hr, h⟩ := bindOkElim h
        have hrl := writeRange_ok_length hr
        have hfin : ∀ tr, (if bytes_read + tr ≥ actual then Except.ok r
            else v.indReadLoop ino offset actual startB endB (k + 1) (bytes_read + tr) r) = .ok out →
            out.length = result.length := by
          intro tr hif
          split at hif
          · injection hif with hif
            rw [← hif]
            exact hrl
          · rw [ihn (k + 1) _ _ _ (by omega) hif]
            exact hrl
        exact hfin _ h
    · injection h with h
      rw [h]

/-- C2: `read_inode_data` errors with `ReadBeyondEof` for `offset >=
file_size`, and any successfully returned byte vector has length exactly
`min(length, file_size - offset)` (so a full read returns `file_size`
bytes). -/
theorem C2_read_inode_data_contract (v : Volume) (fuel : Nat) (ino : Inode)
    (offset length : Nat) :
    (offset ≥ v.superblock.inode_size_file ino →
      v.read_inode_data fuel ino offset length = .error .readBeyondEof) ∧
    ∀ bytes, v.read_inode_data fuel ino offset length = .ok bytes →
      bytes.length = min length (v.superblock.inode_size_file ino - offset) := by
  constructor
  · intro h
    simp only [Volume.read_inode_data]
    rw [if_pos h]
  · intro bytes h
    simp only [Volume.read_inode_data] at h
    split at h
    · exact absurd h (by simp)
    · split at h
      · obtain ⟨exts, hp, h⟩ := bindOkElim h
        try dsimp only at h
        rw [extReadLoop_ok_length v offset _ exts _ 0 bytes h, List.length_replicate]
      · rw [indReadLoop_ok_length v ino offset _ _ _
          (((offset + min length (v.superblock.inode_size_file ino - offset) + v.block_size - 1) /
            v.block_size) - offset / v.block_size) _ _ _ bytes le_rfl h, List.length_replicate]

/-- A one-block volume over an all-zero image. -/
def sparseVol : Volume := { reader := fun _ => 0, superblock := { }, block_size := 1024 }

/-- A 6-byte non-extents regular file whose block pointers are all zero
(a fully sparse file). -/
def sparseInode : Inode :=
  { mode := 0x8000, size := 6, size_hi := 0, flags := 0, block := List.replicate 15 0 }

/-- C2 witness: on a 6-byte file, reading at offset 6 is `ReadBeyondEof`,
and the successful full read from offset 0 returns exactly
`min(6, 6 - 0) = 6` bytes. -/
theorem C2_read_inode_data_contract_witness :
    sparseVol.read_inode_data 1 sparseInode 6 4 = .error .readBeyondEof ∧
    (List.replicate 6 0).length = min 6 (sparseVol.superblock.inode_size_file sparseInode - 0) := by
  constructor
  · exact (C2_read_inode_data_contract sparseVol 1 sparseInode 6 4).1 (by decide)
  · refine (C2_read_inode_data_contract sparseVol 1 sparseInode 0 6).2 (List.replicate 6 0) ?_
    simp [Volume.read_inode_data, Volume.indReadLoop, Volume.get_block_from_inode,
      Volume.read_block, Superblock.inode_size_file, Inode.uses_extents, Inode.blockWord,
      writeRange, readU32InBlock, sparseVol, sparseInode, diskBytes, exceptBindOk,
      exceptPureBind, Nat.testBit]

/-- C10: when the position is at or past the file size, the `Read`
implementation returns `Ok(0)` with the handle unchanged, while the
underlying `InodeReader::read_data` at that offset would have returned the
`ReadBeyondEof` error. -/
theorem C10_file_read_eof_ok_zero (f : File) (fuel bufLen : Nat)
    (h : f.position ≥ f.size) :
    File.read f fuel bufLen = .ok (0, f) ∧
    InodeReader.read_data { reader := f.reader, block_size := f.block_size, inode := f.inode }
      fuel f.position bufLen = .error .readBeyondEof := by
  constructor
  · simp only [File.read]
    rw [if_pos h]
  · have h2 : f.position ≥ f.inode.size64 := h
    simp only [InodeReader.read_data]
    rw [if_pos h2]

/-- A 5-byte regular file handle positioned exactly at EOF. -/
def fileAtEof : File :=
  { reader := fun _ => 0, block_size := 1024, position := 5,
    inode := { mode := 0x8000, size := 5, size_hi := 0, flags := 0,
               block := List.replicate 15 0 } }

/-- C10 witness: the EOF-positioned handle reads `Ok(0)` and keeps its
position, while `read_data` at the same offset errors. -/
theorem C10_file_read_eof_ok_zero_witness :
    File.read fileAtEof 1 10 = .ok (0, fileAtEof) ∧
    InodeReader.read_data
      { reader := fileAtEof.reader, block_size := fileAtEof.block_size,
        inode := fileAtEof.inode } 1 fileAtEof.position 10 = .error .readBeyondEof :=
  C10_file_read_eof_ok_zero fileAtEof 1 10 (by decide)

/-- An image whose every byte is `0xAA`. -/
def aaDisk : Disk := fun _ => 0xAA

/-- A volume over the `0xAA` image. -/
def unwrittenVol : Volume := { reader := aaDisk, superblock := { }, block_size := 1024 }

/-- An UNWRITTEN extent: `block_count = 32769 > 32768`, so its actual length
is 1 block; it maps logical block 0 to physical block 1. -/
def unwrittenTestExtent : Extent :=
  { first_block := 0, block_count := 32769, start_hi := 0, start_lo := 1 }

/-- A 4-byte extents-mapped regular file whose `block` array holds an
extent-tree root (magic 0xF30A, one entry, depth 0) containing exactly
`unwrittenTestExtent`. -/
def unwrittenInode : Inode :=
  { mode := 0x8000, size := 4, size_hi := 0, flags := 0x80000,
    block := [0x0001F30A, 4, 0, 0, 0x00008001, 1, 0, 0, 0, 0, 0, 0, 0, 0, 0] }

set_option maxRecDepth 10000 in
/-- C3: the claim says bytes of an unwritten extent read as zero. The length
arithmetic is right (`get_actual_len = block_count - 32768`), but
`read_inode_data` never tests `is_unwritten`: for the 4-byte file covered by
the unwritten extent it returns the `0xAA` bytes of physical block 1 instead
of zeros. -/
theorem C3_unwritten_extent_not_zero_filled :
    unwrittenTestExtent.is_unwritten = true ∧
    unwrittenTestExtent.get_actual_len =
      unwrittenTestExtent.block_count - Extent.EXT_INIT_MAX_LEN ∧
    unwrittenVol.parse_extent_tree 1 unwrittenInode.block = .ok [unwrittenTestExtent] ∧
    unwrittenVol.read_inode_data 1 unwrittenInode 0 4 = .ok [170, 170, 170, 170] := by
  refine ⟨by decide, by decide, ?_, ?_⟩
  · simp [Volume.parse_extent_tree, Volume.parse_extent_tree_from_block,
      Volume.extentEntriesLoop, sliceRange, ExtentHeader.parse, Extent.parse, wordsToBytes,
      leU16, leU32, byteAt, unwrittenInode, unwrittenTestExtent, exceptBindOk, exceptBindErr]
  · simp [Volume.read_inode_data, Volume.parse_extent_tree, Volume.parse_extent_tree_from_block,
      Volume.extentEntriesLoop, Volume.extReadLoop, sliceRange, ExtentHeader.parse, Extent.parse,
      wordsToBytes, leU16, leU32, byteAt, unwrittenInode, unwrittenVol, aaDisk, diskBytes,
      writeRange, Superblock.inode_size_file, Inode.uses_extents, Nat.testBit,
      Extent.get_actual_len, Extent.is_unwritten, Extent.start_block, Extent.EXT_INIT_MAX_LEN,
      exceptBindOk, exceptBindErr]

/-- A corrupted image: bytes 0..1023 form an extent-tree node with magic 0
(NOT 0xF30A), one entry, depth 1, whose single index entry points back at
block 0 itself. -/
def cyclicDisk : Disk := fun a => if a = 2 then 1 else if a = 6 then 1 else 0

/-- A volume over the cyclic image. -/
def cyclicVol : Volume := { reader := cyclicDisk, superblock := { }, block_size := 1024 }

/-- The contents of block 0 of the cyclic image. -/
def cyclicBlock : List Nat := diskBytes cyclicDisk 0 1024

set_option maxRecDepth 40000 in
/-- C5: the claim says the extent-tree traversal has an explicit depth cap
and rejects headers whose magic is not 0xF30A, so it terminates on cyclic
images. Neither defense exists: `ExtentHeader::parse` accepts the header
with magic 0, and on the self-referencing index block the traversal recurses
forever — for EVERY fuel bound the embedded recursion runs out of fuel
instead of producing a result. -/
theorem C5_extent_traversal_unbounded_on_cycle :
    (∀ fuel, cyclicVol.parse_extent_tree_from_block fuel cyclicBlock = .error .outOfFuel) ∧
    ExtentHeader.parse (cyclicBlock.take 12) =
      .ok { magic := 0, entries_count := 1, max_entries_count := 0, depth := 1,
            generation := 0 } ∧
    (0 : Nat) ≠ 0xF30A := by
  have h1 : sliceRange cyclicBlock 0 12 = .ok [0, 0, 1, 0, 0, 0, 1, 0, 0, 0, 0, 0] := by decide
  have h2 : ExtentHeader.parse [0, 0, 1, 0, 0, 0, 1, 0, 0, 0, 0, 0] =
      .ok { magic := 0, entries_count := 1, max_entries_count := 0, depth := 1,
            generation := 0 } := by
    decide
  have h3 : sliceRange cyclicBlock 12 (12 + 12) = .ok (List.replicate 12 0) := by decide
  have h4 : ExtentIndex.parse (List.replicate 12 0) =
      .ok { first_block := 0, leaf_lo := 0, leaf_hi := 0, padding := 0 } := by decide
  have h5 : cyclicVol.read_block
      (ExtentIndex.leaf_block { first_block := 0, leaf_lo := 0, leaf_hi := 0, padding := 0 }) =
      cyclicBlock := rfl
  refine ⟨?_, by decide, by decide⟩
  intro fuel
  induction fuel with
  | zero => simp [Volume.parse_extent_tree_from_block]
  | succ n ih =>
    simp only [Volume.parse_extent_tree_from_block, h1, exceptBindOk, h2]
    simp only [Volume.extentEntriesLoop, h3, exceptBindOk, h4]
    rw [if_neg (by decide)]
    simp only [exceptBindOk, h5, ih, exceptBindErr]

/-- C6: directory-entry decoding stops when fewer than 8 header bytes
remain, when `rec_len` is 0 or exceeds the remaining bytes; an entry with
inode number 0 is skipped while still advancing by its `rec_len`; an entry
with nonzero inode number is emitted with at most `min(name_len, 255)` name
bytes copied (zero padding elsewhere, and an entirely zero name when the
copy source would run past the buffer); and decoding is deterministic. -/
theorem C6_directory_entry_decoding (data : List Nat) (offset name_len : Nat) :
    (offset + 8 > data.length → parseDirEntriesFrom data offset = []) ∧
    (leU16 data (offset + 4) = 0 ∨ leU16 data (offset + 4) > data.length - offset →
      parseDirEntriesFrom data offset = []) ∧
    (offset + 8 ≤ data.length →
      ¬ (leU16 data (offset + 4) = 0 ∨ leU16 data (offset + 4) > data.length - offset) →
      leU32 data offset = 0 →
      parseDirEntriesFrom data offset =
        parseDirEntriesFrom data (offset + leU16 data (offset + 4))) ∧
    (offset + 8 ≤ data.length →
      ¬ (leU16 data (offset + 4) = 0 ∨ leU16 data (offset + 4) > data.length - offset) →
      leU32 data offset ≠ 0 →
      parseDirEntriesFrom data offset =
        { inode := leU32 data offset, entry_len := leU16 data (offset + 4),
          name_len := byteAt data (offset + 6), inode_type := byteAt data (offset + 7),
          name := dirEntryName data offset (byteAt data (offset + 6)) } ::
          parseDirEntriesFrom data (offset + leU16 data (offset + 4))) ∧
    (dirEntryName data offset name_len).length = 255 ∧
    (offset + 8 + min name_len 255 ≤ data.length →
      dirEntryName data offset name_len =
        bufTake data (offset + 8) (min name_len 255) ++
          List.replicate (255 - min name_len 255) 0) ∧
    (offset + 8 + min name_len 255 > data.length →
      dirEntryName data offset name_len = List.replicate 255 0) ∧
    parseDirEntriesFrom data offset = parseDirEntriesFrom data offset := by
  refine ⟨?_, ?_, ?_, ?_, ?_, ?_, ?_, rfl⟩
  · intro h
    rw [parseDirEntriesFrom]
    by_cases hlt : offset < data.length
    · rw [dif_pos hlt, if_pos h]
    · rw [dif_neg hlt]
  · intro h
    rw [parseDirEntriesFrom]
    by_cases hlt : offset < data.length
    · rw [dif_pos hlt]
      by_cases h8 : offset + 8 > data.length
      · rw [if_pos h8]
      · rw [if_neg h8]
        dsimp only
        rw [dif_pos h]
    · rw [dif_neg hlt]
  · intro h8 hstop hz
    rw [parseDirEntriesFrom]
    rw [dif_pos (by omega : offset < data.length), if_neg (by omega)]
    dsimp only
    rw [dif_neg hstop]
    rw [if_neg (by omega)]
  · intro h8 hstop hnz
    rw [parseDirEntriesFrom]
    rw [dif_pos (by omega : offset < data.length), if_neg (by omega)]
    dsimp only
    rw [dif_neg hstop]
    rw [if_pos hnz]
  · unfold dirEntryName
    dsimp only
    split
    · rename_i hin
      simp only [List.length_append, List.length_replicate, bufTake, List.length_map,
        List.length_take, List.length_drop]
      omega
    · rw [List.length_replicate]
  · intro h
    unfold dirEntryName
    dsimp only
    rw [if_pos h]
  · intro h
    unfold dirEntryName
    dsimp only
    rw [if_neg (by omega)]

/-- 12 bytes of directory content: one entry with inode 2, `rec_len` 12,
`name_len` 1, file type 2, name "A". -/
def dirData : List Nat := [2, 0, 0, 0, 12, 0, 1, 2, 65, 0, 0, 0]

/-- The decoded form of the single entry in `dirData`. -/
def entryA : DirectoryEntry :=
  { inode := 2, entry_len := 12, name_len := 1, inode_type := 2,
    name := 65 :: List.replicate 254 0 }

set_option maxRecDepth 10000 in
/-- C6 witness: the emit rule followed by the header-too-short stop rule
decode `dirData` to exactly `[entryA]`. -/
theorem C6_directory_entry_decoding_witness : parseDirEntriesFrom dirData 0 = [entryA] := by
  have h1 := (C6_directory_entry_decoding dirData 0 1).2.2.2.1 (by decide) (by decide) (by decide)
  have h2 := (C6_directory_entry_decoding dirData 12 1).1 (by decide)
  have e : (0 : Nat) + leU16 dirData (0 + 4) = 12 := by decide
  rw [h1, e, h2]
  decide

/-- A directory inode whose data size is 0, so constructing its `Directory`
fails (reading its entries starts with `read_data(0, 0)`, which is
`ReadBeyondEof`). -/
def dirInodeSize0 : Inode :=
  { mode := 0x4000, size := 0, size_hi := 0, flags := 0, block := List.replicate 15 0 }

/-- A pending regular-file entry named "f". -/
def fileEntryC7 : DirectoryEntry :=
  { inode := 12, entry_len := 12, name_len := 1, inode_type := 1,
    name := 102 :: List.replicate 254 0 }

/-- A pending subdirectory entry named "d" referring to `dirInodeSize0`. -/
def dirEntryC7 : DirectoryEntry :=
  { inode := 7, entry_len := 12, name_len := 1, inode_type := 2,
    name := 100 :: List.replicate 254 0 }

/-- A walker environment in which every inode read yields the zero-size
directory inode and `Directory::new` fails with the `ReadBeyondEof` its
entry parsing raises. -/
def failEnv : WalkerEnv :=
  { read_inode := fun _ => .ok dirInodeSize0
    dir_new := fun _ _ => .error .readBeyondEof
    dir_entries := fun _ _ => .ok []
    read_xattrs := fun _ => .ok [] }

/-- A walker with one frame holding two pending entries; the subdirectory
entry is popped first (pop takes the vector's end). -/
def walkerC7 : DirectoryWalker := ⟨[{ path := [], entries := [fileEntryC7, dirEntryC7] }]⟩

set_option maxRecDepth 10000 in
/-- C7: the claim says an error while decoding a popped entry's
subdirectory is yielded as an error item and iteration continues. Instead,
when `Directory::new` fails for the popped subdirectory entry, the
`.ok()?` on walker.rs line 153 makes `next` return `None`: the stream ends
with no error item even though another entry (`fileEntryC7`) is still
pending. -/
theorem C7_walker_drops_subdir_error_and_ends_stream :
    dirInodeSize0.is_directory = true ∧
    failEnv.dir_new dirInodeSize0 [dirEntryC7.nameStr] = .error .readBeyondEof ∧
    DirectoryWalker.next failEnv walkerC7 =
      (none, ⟨[{ path := [], entries := [fileEntryC7] }]⟩) := by
  refine ⟨by decide, rfl, ?_⟩
  have hl : [fileEntryC7, dirEntryC7].getLast? = some dirEntryC7 := by decide
  have hd : ([fileEntryC7, dirEntryC7] : List DirectoryEntry).dropLast = [fileEntryC7] := by
    decide
  have hname : dirEntryC7.nameStr = [100] := by decide
  rw [DirectoryWalker.next]
  simp only [walkerC7, hl, hd, hname, failEnv, dirInodeSize0]
  norm_num [Inode.is_directory, Inode.typeNibble]
  split
  · rename_i he
    rw [hl] at he
    cases he
  · rename_i entry he
    rw [hl] at he
    injection he with he
    subst he
    rw [if_neg (by decide)]

/-- Running the component loop on `Normal` components only appends them
all to the lexical buffer. -/
theorem normalizeLoop_normals (names : List String) :
    ∀ lexical root, NormalizePath.normalizeLoop (names.map PathComp.normal) lexical root =
      .ok (lexical ++ names.map PathComp.normal) := by
  induction names with
  | nil =>
    intro lexical root
    simp [NormalizePath.normalizeLoop]
  | cons s t ih =>
    intro lexical root
    simp only [List.map_cons, NormalizePath.normalizeLoop]
    rw [ih]
    simp

/-- Loop-output shape: starting from a root part `base` (recorded length)
followed by `Normal` components, any successful run still has that form —
the loop only appends `Normal` components or pops the last one. -/
theorem normalizeLoop_shape (comps : List PathComp) :
    ∀ (base : List PathComp) (names : List String) (q : List PathComp),
      NormalizePath.normalizeLoop comps (base ++ names.map PathComp.normal) base.length = .ok q →
      ∃ names2 : List String, q = base ++ names2.map PathComp.normal := by
  induction comps with
  | nil =>
    intro base names q h
    simp only [NormalizePath.normalizeLoop] at h
    injection h with h
    exact ⟨names, h.symm⟩
  | cons c rest ih =>
    intro base names q h
    cases c with
    | rootDir => simp [NormalizePath.normalizeLoop] at h
    | drive s => simp [NormalizePath.normalizeLoop] at h
    | curDir =>
      simp only [NormalizePath.normalizeLoop] at h
      exact ih base names q h
    | parentDir =>
      simp only [NormalizePath.normalizeLoop] at h
      split at h
      · exact absurd h (by simp)
      · rename_i hne
        have hnn : names.map PathComp.normal ≠ [] := by
          intro hnil
          rw [hnil] at hne
          simp at hne
        rw [List.dropLast_append_of_ne_nil _ hnn, ← List.map_dropLast] at h
        exact ih base names.dropLast q h
    | normal s =>
      simp only [NormalizePath.normalizeLoop] at h
      rw [show (base ++ names.map PathComp.normal) ++ [PathComp.normal s] =
          base ++ (names ++ [s]).map PathComp.normal by simp] at h
      exact ih base (names ++ [s]) q h

/-- C8: path normalization is idempotent — whenever `normalize(p)` succeeds
with `q`, `normalize(q)` succeeds and returns `q` again. -/
theorem C8_normalize_idempotent (p q : List PathComp)
    (h : NormalizePath.normalize p = .ok q) :
    NormalizePath.normalize q = .ok q := by
  cases p with
  | nil =>
    simp only [NormalizePath.normalize] at h
    injection h with h
    subst h
    rfl
  | cons c rest =>
    cases c with
    | parentDir => simp [NormalizePath.normalize] at h
    | rootDir =>
      simp only [NormalizePath.normalize] at h
      obtain ⟨names2, rfl⟩ :=
        normalizeLoop_shape rest [PathComp.rootDir] [] q (by simpa using h)
      show NormalizePath.normalize (PathComp.rootDir :: names2.map PathComp.normal) = _
      simp only [NormalizePath.normalize]
      rw [normalizeLoop_normals]
    | curDir =>
      simp only [NormalizePath.normalize] at h
      obtain ⟨names2, rfl⟩ :=
        normalizeLoop_shape rest [PathComp.curDir] [] q (by simpa using h)
      show NormalizePath.normalize (PathComp.curDir :: names2.map PathComp.normal) = _
      simp only [NormalizePath.normalize]
      rw [normalizeLoop_normals]
    | normal s =>
      simp only [NormalizePath.normalize] at h
      obtain ⟨names2, rfl⟩ :=
        normalizeLoop_shape (PathComp.normal s :: rest) [] [] q (by simpa using h)
      cases names2 with
      | nil => rfl
      | cons t ts =>
        show NormalizePath.normalize (PathComp.normal t :: ts.map PathComp.normal) = _
        simp only [NormalizePath.normalize]
        rw [show (PathComp.normal t :: ts.map PathComp.normal) =
            (t :: ts).map PathComp.normal from rfl]
        rw [normalizeLoop_normals]
    | drive s =>
      cases rest with
      | nil =>
        simp only [NormalizePath.normalize] at h
        obtain ⟨names2, rfl⟩ :=
          normalizeLoop_shape [] [PathComp.drive s] [] q (by simpa using h)
        cases names2 with
        | nil =>
          show NormalizePath.normalize [PathComp.drive s] = _
          simp [NormalizePath.normalize, NormalizePath.normalizeLoop]
        | cons t ts =>
          show NormalizePath.normalize
            (PathComp.drive s :: PathComp.normal t :: ts.map PathComp.normal) = _
          simp only [NormalizePath.normalize]
          rw [show (PathComp.normal t :: ts.map PathComp.normal) =
              (t :: ts).map PathComp.normal from rfl]
          rw [normalizeLoop_normals]
      | cons c2 rest2 =>
        cases c2 with
        | rootDir =>
          simp only [NormalizePath.normalize] at h
          obtain ⟨names2, rfl⟩ :=
            normalizeLoop_shape rest2 [PathComp.drive s, PathComp.rootDir] [] q
              (by simpa using h)
          show NormalizePath.normalize
            (PathComp.drive s :: PathComp.rootDir :: names2.map PathComp.normal) = _
          simp only [NormalizePath.normalize]
          rw [normalizeLoop_normals]
        | curDir =>
          simp only [NormalizePath.normalize] at h
          obtain ⟨names2, rfl⟩ :=
            normalizeLoop_shape (PathComp.curDir :: rest2) [PathComp.drive s] [] q
              (by simpa using h)
          cases names2 with
          | nil =>
            show NormalizePath.normalize [PathComp.drive s] = _
            simp [NormalizePath.normalize, NormalizePath.normalizeLoop]
          | cons t ts =>
            show NormalizePath.normalize
              (PathComp.drive s :: PathComp.normal t :: ts.map PathComp.normal) = _
            simp only [NormalizePath.normalize]
            rw [show (PathComp.normal t :: ts.map PathComp.normal) =
                (t :: ts).map PathComp.normal from rfl]
            rw [normalizeLoop_normals]
        | parentDir =>
          simp only [NormalizePath.normalize] at h
          obtain ⟨names2, rfl⟩ :=
            normalizeLoop_shape (PathComp.parentDir :: rest2) [PathComp.drive s] [] q
              (by simpa using h)
          cases names2 with
          | nil =>
            show NormalizePath.normalize [PathComp.drive s] = _
            simp [NormalizePath.normalize, NormalizePath.normalizeLoop]
          | cons t ts =>
            show NormalizePath.normalize
              (PathComp.drive s :: PathComp.normal t :: ts.map PathComp.normal) = _
            simp only [NormalizePath.normalize]
            rw [show (PathComp.normal t :: ts.map PathComp.normal) =
                (t :: ts).map PathComp.normal from rfl]
            rw [normalizeLoop_normals]
        | drive s2 =>
          simp only [NormalizePath.normalize] at h
          obtain ⟨names2, rfl⟩ :=
            normalizeLoop_shape (PathComp.drive s2 :: rest2) [PathComp.drive s] [] q
              (by simpa using h)
          cases names2 with
          | nil =>
            show NormalizePath.normalize [PathComp.drive s] = _
            simp [NormalizePath.normalize, NormalizePath.normalizeLoop]
          | cons t ts =>
            show NormalizePath.normalize
              (PathComp.drive s :: PathComp.normal t :: ts.map PathComp.normal) = _
            simp only [NormalizePath.normalize]
            rw [show (PathComp.normal t :: ts.map PathComp.normal) =
                (t :: ts).map PathComp.normal from rfl]
            rw [normalizeLoop_normals]
        | normal t0 =>
          simp only [NormalizePath.normalize] at h
          obtain ⟨names2, rfl⟩ :=
            normalizeLoop_shape (PathComp.normal t0 :: rest2) [PathComp.drive s] [] q
              (by simpa using h)
          cases names2 with
          | nil =>
            show NormalizePath.normalize [PathComp.drive s] = _
            simp [NormalizePath.normalize, NormalizePath.normalizeLoop]
          | cons t ts =>
            show NormalizePath.normalize
              (PathComp.drive s :: PathComp.normal t :: ts.map PathComp.normal) = _
            simp only [NormalizePath.normalize]
            rw [show (PathComp.normal t :: ts.map PathComp.normal) =
                (t :: ts).map PathComp.normal from rfl]
            rw [normalizeLoop_normals]


/-- C8 witness: `/a/../b` normalizes to `/b`, and normalizing `/b` again is
a fixed point. -/
theorem C8_normalize_idempotent_witness :
    NormalizePath.normalize
      [PathComp.rootDir, PathComp.normal "a", PathComp.parentDir, PathComp.normal "b"] =
      .ok [PathComp.rootDir, PathComp.normal "b"] ∧
    NormalizePath.normalize [PathComp.rootDir, PathComp.normal "b"] =
      .ok [PathComp.rootDir, PathComp.normal "b"] :=
  ⟨rfl, C8_normalize_idempotent
    [PathComp.rootDir, PathComp.normal "a", PathComp.parentDir, PathComp.normal "b"]
    [PathComp.rootDir, PathComp.normal "b"] rfl⟩

theorem parseInlineXattrLoop_value (raw : List Nat) :
    ∀ n pos e, raw.length - pos ≤ n → e ∈ parseInlineXattrLoop raw pos →
      (e.header.value_inum = 0 → 0 < e.header.value_size →
        e.header.value_offs + e.header.value_size ≤ raw.length →
        e.value = (raw.drop e.header.value_offs).take e.header.value_size) ∧
      ((e.header.value_inum ≠ 0 ∨ e.header.value_size = 0) → e.value = []) := by
  intro n
  induction n with
  | zero =>
    intro pos e hn he
    rw [parseInlineXattrLoop] at he
    rw [dif_neg (show ¬ (pos + XAttrEntry.HEADER_SIZE ≤ raw.length) by
      simp only [XAttrEntry.HEADER_SIZE]
      omega)] at he
    cases he
  | succ n ihn =>
    intro pos e hn he
    rw [parseInlineXattrLoop] at he
    by_cases h16 : pos + XAttrEntry.HEADER_SIZE ≤ raw.length
    · rw [dif_pos h16] at he
      dsimp only at he
      split at he
      · cases he
      · rename_i hdr hp
        split at he
        · cases he
        · split at he
          · cases he
          · rename_i name hg
            try dsimp only at he
            rcases List.mem_cons.mp he with heq | hmem
            · subst heq
              constructor
              · intro hz hs hb
                try dsimp only at hz hs hb ⊢
                rw [if_pos ⟨hz, hs⟩]
                rw [listGetRange, if_pos ⟨by omega, hb⟩]
                simp only [Option.getD_some]
                congr 1
                omega
              · intro hor
                try dsimp only at hor ⊢
                rw [if_neg (by
                  rintro ⟨h1, h2⟩
                  rcases hor with h3 | h3
                  · exact h3 h1
                  · omega)]
            · simp only [XAttrEntry.entry_size, XAttrEntry.HEADER_SIZE] at hmem h16
              exact ihn _ e (by omega) hmem
    · rw [dif_neg h16] at he
      cases he

theorem parseXattrsLoop_value (raw : List Nat) (adj : Int) :
    ∀ n pos acc out e, raw.length - pos ≤ n →
      parseXattrsLoop raw adj pos acc = .ok out → e ∈ out →
      e ∈ acc ∨
      ((e.header.value_inum = 0 → 0 < e.header.value_size →
        0 ≤ (e.header.value_offs : Int) + adj →
        ((e.header.value_offs : Int) + adj).toNat + e.header.value_size ≤ raw.length →
        e.value = (raw.drop ((e.header.value_offs : Int) + adj).toNat).take e.header.value_size) ∧
      ((e.header.value_inum ≠ 0 ∨ e.header.value_size = 0) → e.value = [])) := by
  intro n
  induction n with
  | zero =>
    intro pos acc out e hn h he
    rw [parseXattrsLoop] at h
    rw [dif_neg (show ¬ (pos + XAttrEntry.HEADER_SIZE ≤ raw.length) by
      simp only [XAttrEntry.HEADER_SIZE]
      omega)] at h
    injection h with h
    subst h
    exact Or.inl he
  | succ n ihn =>
    intro pos acc out e hn h he
    rw [parseXattrsLoop] at h
    by_cases h16 : pos + XAttrEntry.HEADER_SIZE ≤ raw.length
    · rw [dif_pos h16] at h
      try dsimp only at h
      obtain ⟨hdr, hp, h⟩ := bindOkElim h
      try dsimp only at h
      split at h
      · injection h with h
        subst h
        exact Or.inl he
      · split at h
        · exact absurd h (by simp)
        · rename_i name hg
          try dsimp only at h
          simp only [XAttrEntry.entry_size, XAttrEntry.HEADER_SIZE] at h h16
          rcases ihn _ _ _ e (by omega) h he with hacc | hP
          · rcases List.mem_append.mp hacc with h1 | h2
            · exact Or.inl h1
            · right
              rcases List.mem_singleton.mp h2 with rfl
              constructor
              · intro hz hs h0 hb
                try dsimp only at hz hs h0 hb ⊢
                rw [if_neg (by simp [hz])]
                rw [if_pos hs]
                rw [if_pos ⟨h0, by omega, by omega⟩]
              · intro hor
                try dsimp only at hor ⊢
                by_cases hz : hdr.value_inum ≠ 0
                · rw [if_pos hz]
                · rw [if_neg hz]
                  rw [if_neg (by
                    rcases hor with h3 | h3
                    · exact absurd h3 hz
                    · omega)]
          · exact Or.inr hP
    · rw [dif_neg h16] at h
      injection h with h
      subst h
      exact Or.inl he

/-- C9: xattr value placement and loop termination. In the inline (ibody)
decoder, an entry with value_inum = 0 and value_size > 0 has its value bytes
taken from absolute offset 4 + value_offs of the ibody buffer; in the block
decoder, from absolute offset value_offs of the block. In both decoders an
entry header whose name_len, name_index, value_offs and value_inum fields are
all zero terminates the entry loop, and an entry with value_inum ≠ 0 or
value_size = 0 carries empty value bytes. -/
theorem C9_xattr_value_offsets (ibody block raw : List Nat) (e : XAttrEntry)
    (inlineEntries blockEntries acc : List XAttrEntry) (adj : Int) (pos : Nat)
    (hdr : XAttrEntryHeader) :
    (Inode.inlineXattrsOfIbody ibody = .ok inlineEntries → e ∈ inlineEntries →
      e.header.value_inum = 0 → 0 < e.header.value_size →
      4 + e.header.value_offs + e.header.value_size ≤ ibody.length →
      e.value = (ibody.drop (4 + e.header.value_offs)).take e.header.value_size) ∧
    (Inode.inlineXattrsOfIbody ibody = .ok inlineEntries → e ∈ inlineEntries →
      (e.header.value_inum ≠ 0 ∨ e.header.value_size = 0) → e.value = []) ∧
    (parse_xattrs_from_block block = .ok blockEntries → e ∈ blockEntries →
      e.header.value_inum = 0 → 0 < e.header.value_size →
      32 ≤ e.header.value_offs →
      e.header.value_offs + e.header.value_size ≤ block.length →
      e.value = (block.drop e.header.value_offs).take e.header.value_size) ∧
    (parse_xattrs_from_block block = .ok blockEntries → e ∈ blockEntries →
      (e.header.value_inum ≠ 0 ∨ e.header.value_size = 0) → e.value = []) ∧
    (XAttrEntryHeader.parse (raw.drop pos) = .ok hdr →
      hdr.name_len = 0 → hdr.name_index = XAttrNameIndex.noPre →
      hdr.value_offs = 0 → hdr.value_inum = 0 →
      parseInlineXattrLoop raw pos = [] ∧
      parseXattrsLoop raw adj pos acc = .ok acc) := by
  refine ⟨?_, ?_, ?_, ?_, ?_⟩
  · intro h hm hz hs hb
    rw [Inode.inlineXattrsOfIbody] at h
    split at h
    · obtain ⟨m, hmk, h⟩ := bindOkElim h
      try dsimp only at h
      split at h
      · injection h with h
        subst h
        have := (parseInlineXattrLoop_value (ibody.drop 4) (ibody.drop 4).length 0 e
          (by omega) hm).1 hz hs (by simp only [List.length_drop]; omega)
        rw [this, List.drop_drop]
      · injection h with h
        subst h
        cases hm
    · injection h with h
      subst h
      cases hm
  · intro h hm hor
    rw [Inode.inlineXattrsOfIbody] at h
    split at h
    · obtain ⟨m, hmk, h⟩ := bindOkElim h
      try dsimp only at h
      split at h
      · injection h with h
        subst h
        exact (parseInlineXattrLoop_value (ibody.drop 4) (ibody.drop 4).length 0 e
          (by omega) hm).2 hor
      · injection h with h
        subst h
        cases hm
    · injection h with h
      subst h
      cases hm
  · intro h hm hz hs h32 hb
    rw [parse_xattrs_from_block] at h
    split at h
    · injection h with h
      subst h
      cases hm
    · rename_i hlen
      obtain ⟨m, hmk, h⟩ := bindOkElim h
      try dsimp only at h
      rw [show (XAttrHeader.SIZE + 3) / 4 * 4 = 32 by rw [XAttrHeader.SIZE]] at h
      split at h
      · injection h with h
        subst h
        cases hm
      · rename_i hlt
        rw [parse_xattrs] at h
        rcases parseXattrsLoop_value (block.drop 32) (-(32 : Int))
            (block.drop 32).length 0 [] blockEntries e (by omega) h hm with hacc | hP
        · cases hacc
        · have h0 : (0 : Int) ≤ (e.header.value_offs : Int) + -32 := by omega
          have htn : ((e.header.value_offs : Int) + -32).toNat = e.header.value_offs - 32 := by
            omega
          have := hP.1 hz hs h0 (by
            rw [htn]
            simp only [List.length_drop]
            omega)
          rw [this, htn, List.drop_drop]
          congr 2
          omega
  · intro h hm hor
    rw [parse_xattrs_from_block] at h
    split at h
    · injection h with h
      subst h
      cases hm
    · rename_i hlen
      obtain ⟨m, hmk, h⟩ := bindOkElim h
      try dsimp only at h
      rw [show (XAttrHeader.SIZE + 3) / 4 * 4 = 32 by rw [XAttrHeader.SIZE]] at h
      split at h
      · injection h with h
        subst h
        cases hm
      · rw [parse_xattrs] at h
        rcases parseXattrsLoop_value (block.drop 32) (-(32 : Int))
            (block.drop 32).length 0 [] blockEntries e (by omega) h hm with hacc | hP
        · cases hacc
        · exact hP.2 hor
  · intro hp h1 h2 h3 h4
    have h16 : pos + XAttrEntry.HEADER_SIZE ≤ raw.length := by
      by_contra hc
      rw [XAttrEntryHeader.parse] at hp
      rw [if_pos (by
        simp only [List.length_drop]
        simp only [XAttrEntry.HEADER_SIZE] at hc
        omega)] at hp
      cases hp
    have hend : hdr.is_end_of_entries = true := by
      simp [XAttrEntryHeader.is_end_of_entries, h1, h2, h3, h4, XAttrNameIndex.val]
    constructor
    · rw [parseInlineXattrLoop, dif_pos h16]
      try dsimp only
      rw [hp]
      try dsimp only
      rw [if_pos hend]
    · rw [parseXattrsLoop, dif_pos h16]
      try dsimp only
      rw [hp, exceptBindOk]
      try dsimp only
      rw [if_pos hend]

def rawW : List Nat :=
  [1, 6, 36, 0, 0, 0, 0, 0, 2, 0, 0, 0, 0, 0, 0, 0, 115, 0, 0, 0,
   0, 0, 0, 0, 0, 0, 0, 0, 0, 0, 0, 0, 0, 0, 0, 0, 171, 205]

def ibodyW : List Nat :=
  [0, 0, 2, 234, 1, 6, 36, 0, 0, 0, 0, 0, 2, 0, 0, 0, 0, 0, 0, 0, 115, 0, 0, 0,
   0, 0, 0, 0, 0, 0, 0, 0, 0, 0, 0, 0, 0, 0, 0, 0, 171, 205]

def entryW : XAttrEntry :=
  { header := { name_len := 1, name_index := .security, value_offs := 36,
                value_inum := 0, value_size := 2, hash := 0 },
    name := [115], value := [171, 205] }

def blockW : List Nat :=
  [0, 0, 2, 234, 0, 0, 0, 0, 0, 0, 0, 0, 0, 0, 0, 0, 0, 0, 0, 0, 0, 0, 0, 0,
   0, 0, 0, 0, 0, 0, 0, 0, 1, 6, 68, 0, 0, 0, 0, 0, 2, 0, 0, 0, 0, 0, 0, 0,
   115, 0, 0, 0, 0, 0, 0, 0, 0, 0, 0, 0, 0, 0, 0, 0, 0, 0, 0, 0, 171, 205]

def blockTailW : List Nat :=
  [1, 6, 68, 0, 0, 0, 0, 0, 2, 0, 0, 0, 0, 0, 0, 0, 115, 0, 0, 0,
   0, 0, 0, 0, 0, 0, 0, 0, 0, 0, 0, 0, 0, 0, 0, 0, 171, 205]

def entryWB : XAttrEntry :=
  { header := { name_len := 1, name_index := .security, value_offs := 68,
                value_inum := 0, value_size := 2, hash := 0 },
    name := [115], value := [171, 205] }

def zeroXHdr : XAttrEntryHeader :=
  { name_len := 0, name_index := .noPre, value_offs := 0, value_inum := 0,
    value_size := 0, hash := 0 }

set_option maxRecDepth 4000 in
set_option maxHeartbeats 1000000 in
theorem C9_xattr_value_offsets_witness :
    entryW.value = (ibodyW.drop (4 + entryW.header.value_offs)).take entryW.header.value_size ∧
    entryWB.value = (blockW.drop entryWB.header.value_offs).take entryWB.header.value_size ∧
    parseInlineXattrLoop (ibodyW.drop 4) 20 = [] := by
  have hloop : parseInlineXattrLoop rawW 0 = [entryW] := by
    simp [parseInlineXattrLoop, XAttrEntryHeader.parse, XAttrNameIndex.ofByte,
      XAttrEntryHeader.is_end_of_entries, listGetRange, leU16, leU32, byteAt,
      rawW, entryW, XAttrNameIndex.val, XAttrEntry.HEADER_SIZE, XAttrEntry.entry_size]
  have hinl : Inode.inlineXattrsOfIbody ibodyW = .ok [entryW] := by
    have hh : XAttrIbodyHeader.parse ibodyW = .ok 0xEA020000 := by decide
    rw [Inode.inlineXattrsOfIbody]
    rw [if_pos (by decide : ibodyW.length ≥ 4)]
    rw [hh, exceptBindOk]
    rw [if_pos (by decide : ibodyW.length > 4)]
    rw [show ibodyW.drop 4 = rawW from by decide]
    rw [hloop]
  have hph : XAttrEntryHeader.parse (blockTailW.drop 0) =
      .ok { name_len := 1, name_index := .security, value_offs := 68, value_inum := 0,
            value_size := 2, hash := 0 } := by decide
  have hph2 : XAttrEntryHeader.parse (blockTailW.drop 20) =
      .ok { name_len := 0, name_index := .noPre, value_offs := 0, value_inum := 0,
            value_size := 0, hash := 0 } := by decide
  have hloopB : parseXattrsLoop blockTailW (-(32 : Int)) 0 [] = .ok [entryWB] := by
    rw [parseXattrsLoop, dif_pos (by decide)]
    dsimp only
    rw [hph, exceptBindOk]
    dsimp only
    rw [if_neg (by decide)]
    rw [show listGetRange blockTailW (0 + XAttrEntry.HEADER_SIZE)
        (0 + XAttrEntry.HEADER_SIZE +
          ({ name_len := 1, name_index := .security, value_offs := 68, value_inum := 0,
             value_size := 2, hash := 0 } : XAttrEntryHeader).name_len) = some [115] from by
      decide]
    dsimp only
    rw [if_neg (by decide), if_pos (by decide), if_pos (by decide)]
    rw [show ((blockTailW.drop (((68 : Nat) : Int) + -32).toNat).take 2) = [171, 205] from by
      decide]
    rw [show (0 + ({ header := { name_len := 1, name_index := .security, value_offs := 68,
                                 value_inum := 0, value_size := 2, hash := 0 },
                     name := [115],
                     value := [171, 205] } : XAttrEntry).entry_size) = 20 from by decide]
    rw [parseXattrsLoop, dif_pos (by decide)]
    dsimp only
    rw [hph2, exceptBindOk]
    dsimp only
    rw [if_pos (by decide)]
    rfl
  have hblk : parse_xattrs_from_block blockW = .ok [entryWB] := by
    have hxh : XAttrHeader.parse blockW =
        .ok { magic := 0xEA020000, refcount := 0, blocks := 0, hash := 0, checksum := 0 } := by
      decide
    rw [parse_xattrs_from_block]
    rw [if_neg (by decide : ¬ (blockW.length < XAttrHeader.SIZE))]
    rw [hxh, exceptBindOk]
    dsimp only
    rw [show (XAttrHeader.SIZE + 3) / 4 * 4 = 32 from by decide]
    rw [if_neg (by decide : ¬ (32 ≥ blockW.length))]
    rw [show blockW.drop 32 = blockTailW from by decide]
    rw [parse_xattrs]
    rw [show -((32 : Nat) : Int) = (-32 : Int) from by norm_num]
    rw [hloopB]
  have hterm : XAttrEntryHeader.parse ((ibodyW.drop 4).drop 20) = .ok zeroXHdr := by decide
  refine ⟨?_, ?_, ?_⟩
  · exact (C9_xattr_value_offsets ibodyW blockW (ibodyW.drop 4) entryW [entryW] [entryWB] []
      (-32) 20 zeroXHdr).1 hinl (by simp) (by decide) (by decide) (by decide)
  · exact (C9_xattr_value_offsets ibodyW blockW (ibodyW.drop 4) entryWB [entryW] [entryWB] []
      (-32) 20 zeroXHdr).2.2.1 hblk (by simp) (by decide) (by decide) (by decide) (by decide)
  · exact ((C9_xattr_value_offsets ibodyW blockW (ibodyW.drop 4) entryW [entryW] [entryWB] []
      (-32) 20 zeroXHdr).2.2.2.2 hterm (by decide) (by decide) (by decide) (by decide)).1

theorem diskBytes_length (d : Disk) (s n : Nat) : (diskBytes d s n).length = n := by
  simp [diskBytes]

theorem getD_replicate_zero {n m : Nat} (h : m < n) : (List.replicate n 0).getD m 1 = 0 := by
  rw [List.getD_eq_getElem?_getD]
  simp [List.getElem?_replicate, h]

theorem writeRange_getD_lt {dst src out : List Nat} {start p : Nat}
    (h : writeRange dst start src = .ok out) (hp : p < start) :
    out.getD p 1 = dst.getD p 1 := by
  unfold writeRange at h
  split at h
  · rename_i hle
    injection h with h
    subst h
    rw [List.getD_eq_getElem?_getD, List.getD_eq_getElem?_getD]
    rw [List.getElem?_append_left (by
      simp only [List.length_append, List.length_take]
      omega)]
    rw [List.getElem?_append_left (by
      simp only [List.length_take]
      omega)]
    simp [List.getElem?_take, hp]
  · exact absurd h (by simp)

theorem writeRange_getD_in {dst src out : List Nat} {start p : Nat}
    (h : writeRange dst start src = .ok out) (h1 : start ≤ p) (h2 : p < start + src.length) :
    out.getD p 1 = src.getD (p - start) 1 := by
  unfold writeRange at h
  split at h
  · rename_i hle
    injection h with h
    subst h
    have hto : (dst.take start).length = start := by
      simp only [List.length_take]
      omega
    rw [List.getD_eq_getElem?_getD, List.getD_eq_getElem?_getD]
    rw [List.getElem?_append_left (by
      simp only [List.length_append, List.length_take]
      omega)]
    rw [List.getElem?_append_right (by rw [hto]; omega)]
    rw [hto]
  · exact absurd h (by simp)

theorem writeRange_getD_ge {dst src out : List Nat} {start p : Nat}
    (h : writeRange dst start src = .ok out) (h2 : start + src.length ≤ p) :
    out.getD p 1 = dst.getD p 1 := by
  unfold writeRange at h
  split at h
  · rename_i hle
    injection h with h
    subst h
    have hl : (dst.take start ++ src).length = start + src.length := by
      simp only [List.length_append, List.length_take]
      omega
    rw [List.getD_eq_getElem?_getD, List.getD_eq_getElem?_getD]
    rw [List.getElem?_append_right (by rw [hl]; omega)]
    rw [hl]
    rw [List.getElem?_drop]
    have hidx : start + src.length + (p - (start + src.length)) = p := by omega
    rw [hidx]
  · exact absurd h (by simp)

/-- The indirect-branch block loop never rewrites buffer positions below
its starting `bytes_read`. -/
theorem indReadLoop_front (v : Volume) (ino : Inode)
    (offset actual startB endB : Nat) :
    ∀ n k bytes_read result out, endB - k ≤ n →
      Volume.indReadLoop v ino offset actual startB endB k bytes_read result = .ok out →
      ∀ p, p < bytes_read → out.getD p 1 = result.getD p 1 := by
  intro n
  induction n with
  | zero =>
    intro k br res out hn h p hp
    rw [Volume.indReadLoop, dif_neg (by omega)] at h
    injection h with h
    rw [h]
  | succ n ihn =>
    intro k br res out hn h p hp
    rw [Volume.indReadLoop] at h
    split at h
    · rename_i hk
      simp only [exceptPureBind] at h
      obtain ⟨pb, hpb, h⟩ := bindOkElim h
      try dsimp only at h
      split at h
      · obtain ⟨r, hr, h⟩ := bindOkElim h
        have hpre := writeRange_getD_lt hr hp
        have hfin : ∀ tr, (if br + tr ≥ actual then Except.ok r
            else v.indReadLoop ino offset actual startB endB (k + 1) (br + tr) r) = .ok out →
            out.getD p 1 = res.getD p 1 := by
          intro tr hif
          split at hif
          · injection hif with hif
            rw [← hif, hpre]
          · rw [ihn (k + 1) _ _ _ (by omega) hif p (by omega), hpre]
        exact hfin _ h
      · obtain ⟨r, hr, h⟩ := bindOkElim h
        have hpre := writeRange_getD_lt hr hp
        have hfin : ∀ tr, (if br + tr ≥ actual then Except.ok r
            else v.indReadLoop ino offset actual startB endB (k + 1) (br + tr) r) = .ok out →
            out.getD p 1 = res.getD p 1 := by
          intro tr hif
          split at hif
          · injection hif with hif
            rw [← hif, hpre]
          · rw [ihn (k + 1) _ _ _ (by omega) hif p (by omega), hpre]
        exact hfin _ h
    · injection h with h
      rw [h]

/-- In the indirect branch of `read_inode_data`, every buffer position whose
logical block resolves to physical block 0 is zero in the returned bytes. -/
theorem indReadLoop_zero (v : Volume) (ino : Inode)
    (offset actual startB endB : Nat) (hbs : 0 < v.block_size)
    (hsb : startB = offset / v.block_size) :
    ∀ n k bytes_read result out, endB - k ≤ n →
      startB ≤ k →
      (k = startB → bytes_read = 0) →
      (startB < k → offset + bytes_read = k * v.block_size) →
      bytes_read ≤ actual →
      result.length = actual →
      (∀ q, bytes_read ≤ q → q < result.length → result.getD q 1 = 0) →
      Volume.indReadLoop v ino offset actual startB endB k bytes_read result = .ok out →
      ∀ p, bytes_read ≤ p → p < out.length →
        v.get_block_from_inode ino ((offset + p) / v.block_size) = .ok 0 →
        out.getD p 1 = 0 := by
  intro n
  induction n with
  | zero =>
    intro k br res out hn hks h0 hpos hba hrl hz h p hp hpl hres
    rw [Volume.indReadLoop, dif_neg (by omega)] at h
    injection h with h
    subst h
    exact hz p hp hpl
  | succ n ihn =>
    intro k br res out hn hks h0 hpos hba hrl hz h p hp hpl hres
    rw [Volume.indReadLoop] at h
    split at h
    · rename_i hk
      simp only [exceptPureBind] at h
      obtain ⟨pb, hpb, h⟩ := bindOkElim h
      try dsimp only at h
      set bo := if k = startB then offset % v.block_size else 0 with hbo
      have hbolt : bo < v.block_size := by
        rw [hbo]
        split
        · exact Nat.mod_lt _ hbs
        · exact hbs
      have hseg : offset + br = v.block_size * k + bo := by
        rcases Nat.eq_or_lt_of_le hks with hkeq | hklt
        · rw [hbo, if_pos hkeq.symm, h0 hkeq.symm, ← hkeq, hsb, Nat.add_zero]
          exact (Nat.div_add_mod offset v.block_size).symm
        · rw [hbo, if_neg (by omega), Nat.add_zero, Nat.mul_comm]
          exact hpos hklt
      have hquot : ∀ q, br ≤ q → q < br + (v.block_size - bo) →
          (offset + q) / v.block_size = k := by
        intro q h1 h2
        have hx : offset + q = v.block_size * k + (bo + (q - br)) := by omega
        rw [hx, Nat.mul_add_div hbs, Nat.div_eq_of_lt (by omega), Nat.add_zero]
      split at h
      · rename_i hpz
        obtain ⟨r, hr, h⟩ := bindOkElim h
        have hrlen : r.length = res.length := writeRange_ok_length hr
        have hzr : ∀ q, br ≤ q → q < r.length → r.getD q 1 = 0 := by
          intro q h1 h2
          by_cases hqin : q < br + min (v.block_size - bo) (actual - br)
          · rw [writeRange_getD_in hr h1 (by
              simp only [List.length_replicate]
              omega)]
            exact getD_replicate_zero (by omega)
          · rw [writeRange_getD_ge hr (by
              simp only [List.length_replicate]
              omega)]
            exact hz q (by omega) (by omega)
        split at h
        · rename_i hge
          injection h with h
          subst h
          exact hzr p hp hpl
        · rename_i hnge
          have houtlen := indReadLoop_ok_length v ino offset actual startB endB n (k + 1)
            _ r out (by omega) h
          by_cases hpin : p < br + min (v.block_size - bo) (actual - br)
          · rw [indReadLoop_front v ino offset actual startB endB n (k + 1) _ r out
              (by omega) h p hpin]
            exact hzr p hp (by omega)
          · have hseg' : offset + (br + min (v.block_size - bo) (actual - br)) =
                (k + 1) * v.block_size := by
              rw [Nat.succ_mul, Nat.mul_comm k v.block_size]
              omega
            exact ihn (k + 1) _ r out (by omega) (by omega)
              (fun habs => absurd habs (by omega)) (fun _ => hseg') (by omega)
              (hrlen.trans hrl) (fun q h1 h2 => hzr q (by omega) h2) h p (by omega) hpl hres
      · rename_i hpnz
        obtain ⟨r, hr, h⟩ := bindOkElim h
        have hrlen : r.length = res.length := writeRange_ok_length hr
        have hcontra : ∀ q, br ≤ q → q < br + min (v.block_size - bo) (actual - br) →
            v.get_block_from_inode ino ((offset + q) / v.block_size) = .ok 0 → False := by
          intro q h1 h2 hq
          rw [hquot q h1 (by omega)] at hq
          have hq2 := hpb.symm.trans hq
          injection hq2 with hq2
          exact hpnz hq2
        have hzr : ∀ q, br + min (v.block_size - bo) (actual - br) ≤ q → q < r.length →
            r.getD q 1 = 0 := by
          intro q h1 h2
          rw [writeRange_getD_ge hr (by
            simp only [diskBytes_length]
            omega)]
          exact hz q (by omega) (by omega)
        split at h
        · rename_i hge
          injection h with h
          subst h
          by_cases hpin : p < br + min (v.block_size - bo) (actual - br)
          · exact (hcontra p hp hpin hres).elim
          · exact hzr p (by omega) hpl
        · rename_i hnge
          by_cases hpin : p < br + min (v.block_size - bo) (actual - br)
          · exact (hcontra p hp hpin hres).elim
          · have hseg' : offset + (br + min (v.block_size - bo) (actual - br)) =
                (k + 1) * v.block_size := by
              rw [Nat.succ_mul, Nat.mul_comm k v.block_size]
              omega
            exact ihn (k + 1) _ r out (by omega) (by omega)
              (fun habs => absurd habs (by omega)) (fun _ => hseg') (by omega)
              (hrlen.trans hrl) hzr h p (by omega) hpl hres
    · injection h with h
      subst h
      exact hz p hp hpl

/-- C4: for an indirect-mapped inode, block resolution follows the
direct/single/double/triple table (0..11 direct; then block_size/4 blocks
via block[12]; then (block_size/4)^2 via block[13]; then (block_size/4)^3
via block[14]); a zero pointer at any level resolves to physical block 0;
and `read_inode_data` returns zero for every byte of a logical block that
resolves to physical block 0. -/
theorem C4_indirect_block_resolution (v : Volume) (ino : Inode)
    (lbi fuel offset length p : Nat) (bytes : List Nat) :
    (lbi < 12 → v.get_block_from_inode ino lbi = .ok (ino.blockWord lbi)) ∧
    (12 ≤ lbi → lbi - 12 < v.block_size / 4 →
      (ino.blockWord 12 = 0 → v.get_block_from_inode ino lbi = .ok 0) ∧
      (ino.blockWord 12 ≠ 0 → v.get_block_from_inode ino lbi =
        readU32InBlock (v.read_block (ino.blockWord 12)) ((lbi - 12) * 4))) ∧
    (12 + v.block_size / 4 ≤ lbi →
      lbi - 12 - v.block_size / 4 < v.block_size / 4 * (v.block_size / 4) →
      (ino.blockWord 13 = 0 → v.get_block_from_inode ino lbi = .ok 0) ∧
      (∀ b1, ino.blockWord 13 ≠ 0 →
        readU32InBlock (v.read_block (ino.blockWord 13))
          ((lbi - 12 - v.block_size / 4) / (v.block_size / 4) * 4) = .ok b1 →
        (b1 = 0 → v.get_block_from_inode ino lbi = .ok 0) ∧
        (b1 ≠ 0 → v.get_block_from_inode ino lbi =
          readU32InBlock (v.read_block b1)
            ((lbi - 12 - v.block_size / 4) % (v.block_size / 4) * 4)))) ∧
    (12 + v.block_size / 4 + v.block_size / 4 * (v.block_size / 4) ≤ lbi →
      (ino.blockWord 14 = 0 → v.get_block_from_inode ino lbi = .ok 0) ∧
      (∀ b1 b2, ino.blockWord 14 ≠ 0 →
        readU32InBlock (v.read_block (ino.blockWord 14))
          ((lbi - 12 - v.block_size / 4 - v.block_size / 4 * (v.block_size / 4)) /
            (v.block_size / 4 * (v.block_size / 4)) * 4) = .ok b1 →
        (b1 = 0 → v.get_block_from_inode ino lbi = .ok 0) ∧
        (b1 ≠ 0 →
          readU32InBlock (v.read_block b1)
            ((lbi - 12 - v.block_size / 4 - v.block_size / 4 * (v.block_size / 4)) /
              (v.block_size / 4) % (v.block_size / 4) * 4) = .ok b2 →
          (b2 = 0 → v.get_block_from_inode ino lbi = .ok 0) ∧
          (b2 ≠ 0 → v.get_block_from_inode ino lbi =
            readU32InBlock (v.read_block b2)
              ((lbi - 12 - v.block_size / 4 - v.block_size / 4 * (v.block_size / 4)) %
                (v.block_size / 4) * 4))))) ∧
    (ino.uses_extents = false → 0 < v.block_size →
      v.read_inode_data fuel ino offset length = .ok bytes → p < bytes.length →
      v.get_block_from_inode ino ((offset + p) / v.block_size) = .ok 0 →
      bytes.getD p 1 = 0) := by
  refine ⟨?_, ?_, ?_, ?_, ?_⟩
  · intro h
    rw [Volume.get_block_from_inode]
    dsimp only
    rw [if_pos h]
  · intro h1 h2
    rw [Volume.get_block_from_inode]
    dsimp only
    rw [if_neg (by omega), if_pos h2]
    constructor
    · intro hz
      rw [if_pos hz]
    · intro hnz
      rw [if_neg hnz]
  · intro h1 h2
    rw [Volume.get_block_from_inode]
    dsimp only
    rw [if_neg (by omega), if_neg (by omega), if_pos h2]
    constructor
    · intro hz
      rw [if_pos hz]
    · intro b1 hnz hb1
      rw [if_neg hnz]
      rw [hb1, exceptBindOk]
      constructor
      · intro hz1
        rw [if_pos hz1]
      · intro hnz1
        rw [if_neg hnz1]
  · intro h1
    rw [Volume.get_block_from_inode]
    dsimp only
    rw [if_neg (by omega), if_neg (by omega), if_neg (by omega)]
    constructor
    · intro hz
      rw [if_pos hz]
    · intro b1 b2 hnz hb1
      rw [if_neg hnz]
      rw [hb1, exceptBindOk]
      constructor
      · intro hz1
        rw [if_pos hz1]
      · intro hnz1 hb2
        rw [if_neg hnz1]
        rw [hb2, exceptBindOk]
        constructor
        · intro hz2
          rw [if_pos hz2]
        · intro hnz2
          rw [if_neg hnz2]
  · intro hue hbs h hp hres
    simp only [Volume.read_inode_data] at h
    split at h
    · exact absurd h (by simp)
    · split at h
      · rename_i huse
        rw [hue] at huse
        exact absurd huse (by simp)
      · exact indReadLoop_zero v ino offset
          (min length (v.superblock.inode_size_file ino - offset))
          (offset / v.block_size)
          ((offset + min length (v.superblock.inode_size_file ino - offset) +
            v.block_size - 1) / v.block_size)
          hbs rfl
          (((offset + min length (v.superblock.inode_size_file ino - offset) +
            v.block_size - 1) / v.block_size) - offset / v.block_size)
          (offset / v.block_size) 0 _ bytes le_rfl le_rfl (fun _ => rfl)
          (fun hlt => absurd hlt (lt_irrefl _)) (Nat.zero_le _)
          (List.length_replicate _ _)
          (fun q _ hq => getD_replicate_zero (by
            simp only [List.length_replicate] at hq
            exact hq))
          h p (Nat.zero_le p) hp hres

/-- A volume with 8-byte blocks over an all-zero image, for exercising the
indirect resolution table with addr_per_block = 2. -/
def ind8Vol : Volume := { reader := fun _ => 0, superblock := { }, block_size := 8 }

/-- A 4-byte indirect-mapped regular file whose block table is all zeros:
every logical block is a sparse hole. -/
def ind8Inode : Inode :=
  { mode := 0x8000, size := 4, size_hi := 0, flags := 0,
    block := [0, 0, 0, 0, 0, 0, 0, 0, 0, 0, 0, 0, 0, 0, 0] }

theorem C4_indirect_block_resolution_witness :
    ind8Vol.get_block_from_inode ind8Inode 5 = .ok 0 ∧
    ind8Vol.get_block_from_inode ind8Inode 12 = .ok 0 ∧
    ind8Vol.get_block_from_inode ind8Inode 14 = .ok 0 ∧
    ind8Vol.get_block_from_inode ind8Inode 18 = .ok 0 ∧
    ind8Vol.read_inode_data 1 ind8Inode 0 4 = .ok [0, 0, 0, 0] ∧
    ([0, 0, 0, 0] : List Nat).getD 2 1 = 0 := by
  have hread : ind8Vol.read_inode_data 1 ind8Inode 0 4 = .ok [0, 0, 0, 0] := by
    simp [Volume.read_inode_data, Volume.indReadLoop, Volume.get_block_from_inode,
      Superblock.inode_size_file, Inode.is_regular_file, Inode.typeNibble,
      Inode.uses_extents, Inode.blockWord, writeRange, ind8Vol, ind8Inode,
      List.replicate, exceptBindOk]
  refine ⟨?_, ?_, ?_, ?_, hread, ?_⟩
  · exact ((C4_indirect_block_resolution ind8Vol ind8Inode 5 1 0 4 2 [0, 0, 0, 0]).1
      (by decide)).trans (by decide)
  · exact ((C4_indirect_block_resolution ind8Vol ind8Inode 12 1 0 4 2 [0, 0, 0, 0]).2.1
      (by decide) (by decide)).1 (by decide)
  · exact ((C4_indirect_block_resolution ind8Vol ind8Inode 14 1 0 4 2 [0, 0, 0, 0]).2.2.1
      (by decide) (by decide)).1 (by decide)
  · exact ((C4_indirect_block_resolution ind8Vol ind8Inode 18 1 0 4 2 [0, 0, 0, 0]).2.2.2.1
      (by decide)).1 (by decide)
  · exact (C4_indirect_block_resolution ind8Vol ind8Inode 5 1 0 4 2 [0, 0, 0, 0]).2.2.2.2
      (by decide) (by decide) hread (by decide) (by decide)
